import Mathlib

/-!
Verification development for the `yolov5-lmdb` repository: a shallow embedding of
`src/lmdb/lmdbDataset.py` and `src/lmdb/lmdbDatasetReadonly.py` in Lean 4, together
with theorems settling the specification claims about the sharded LMDB dataset layer.

Modelling conventions:
* Python `bytes` values are `List Nat` with each element `< 256`.
* Python exceptions are an explicit error type `PyError`; a fallible operation returns
  `Except PyError α`, and a mutating operation returns the post-state paired with the
  result (`σ × Except PyError α`), since Python mutations performed before a raise persist.
* The external LMDB engine (out of scope per the spec, §4.1 contract) is modelled as an
  association list of byte-string entries with a capacity bound: `put` signals
  `mapFull` when committing would exceed `mapSize` and does not partially apply.
* The external image codec (cv2) is modelled as parameters `imencode`/`imdecode`.
* The Python stdlib codecs actually exercised by the data path (`latin-1`, `base64`
  `encodebytes`/`decodebytes`, `json.dumps`/`json.loads` with their default options)
  are given executable models below, faithful to CPython behaviour on the value space
  used by this program (floats and lone-surrogate strings are outside the value space).
-/

set_option maxHeartbeats 1000000
set_option maxRecDepth 8000
set_option linter.unusedVariables false

namespace YoloLmdb

/-- Python `bytes`: a list of byte values (each `< 256`; validity is carried as a
hypothesis where a claim needs it). -/
abbrev Bytes := List Nat

/-- The Python exceptions and error outcomes the embedded code can produce. -/
inductive PyError where
  /-- `Exception("The LMDB (Dataset|environment) has not been ...")` -/
  | notOpen
  /-- `Exception("Key already exists")` -/
  | keyExists
  /-- `lmdb.MapFullError` -/
  | mapFull
  /-- `TypeError` (e.g. unpacking `None`, subscripting a non-dict) -/
  | typeError
  /-- `KeyError` (missing dict key) -/
  | keyError
  /-- `ValueError` (e.g. `int()` on a non-numeric string) -/
  | valueError
  /-- `AttributeError` (attribute lookup failure) -/
  | attributeError
  /-- `UnicodeEncodeError` / `UnicodeDecodeError` -/
  | unicodeError
  /-- `Exception("The LMDB dataset has been opened in read-only mode")` -/
  | readOnlyError
  /-- `Exception("Failed to encode image")` -/
  | codecError
  /-- `json.JSONDecodeError` -/
  | jsonDecodeError
  /-- `Exception("Bad LMDB Dataset name '...'")` -/
  | badNameError
  /-- `Exception("No LMDB dataset folders found in specified path(s)")` -/
  | pathError
  deriving DecidableEq, Repr

/-! ### Association lists: the model of Python `dict`

Python dicts preserve insertion order; overwriting an existing key keeps its
original position. `aput` mirrors that. -/

/-- Lookup in an association list (Python `dict.get`). -/
def aget {α β : Type} [DecidableEq α] : List (α × β) → α → Option β
  | [], _ => none
  | (k', v) :: t, k => if k' = k then some v else aget t k

/-- Insert-or-overwrite (Python `dict[k] = v`): replaces in place, else appends. -/
def aput {α β : Type} [DecidableEq α] : List (α × β) → α → β → List (α × β)
  | [], k, v => [(k, v)]
  | (k', v') :: t, k, v => if k' = k then (k', v) :: t else (k', v') :: aput t k v

/-- Removal (Python `dict.pop(k, None)` / LMDB `delete`). -/
def adel {α β : Type} [DecidableEq α] : List (α × β) → α → List (α × β)
  | [], _ => []
  | (k', v') :: t, k => if k' = k then t else (k', v') :: adel t k

theorem aget_aput {α β : Type} [DecidableEq α] (m : List (α × β)) (k : α) (v : β) :
    aget (aput m k v) k = some v := by
  induction m with
  | nil => simp [aput, aget]
  | cons h t ih =>
    obtain ⟨k', v'⟩ := h
    by_cases hk : k' = k <;> simp [aput, aget, hk, ih]

theorem aget_aput_ne {α β : Type} [DecidableEq α] (m : List (α × β)) (k k' : α) (v : β)
    (h : k ≠ k') : aget (aput m k v) k' = aget m k' := by
  induction m with
  | nil => simp [aput, aget, h]
  | cons hd t ih =>
    obtain ⟨k₀, v₀⟩ := hd
    by_cases hk : k₀ = k
    · subst hk
      simp [aput, aget, h]
    · simp [aput, hk, aget]
      by_cases hk' : k₀ = k' <;> simp [aget, hk', ih]

/-! ### The `latin-1` codec (`str.encode('latin1')` / `bytes.decode('latin1')`) -/

/-- `True` iff every character of `s` is a code point `< 256`, i.e. `s.encode('latin1')`
succeeds. -/
def latin1Encodable (s : String) : Bool := s.data.all (fun c => c.toNat < 256)

/-- `str.encode('latin1')`: one byte per code point; raises `UnicodeEncodeError` on a
code point `≥ 256`. -/
def encodeLatin1 (s : String) : Except PyError Bytes :=
  if latin1Encodable s then .ok (s.data.map Char.toNat) else .error .unicodeError

/-- `bytes.decode('latin1')`: total, one character per byte. -/
def decodeLatin1 (b : Bytes) : String := ⟨b.map Char.ofNat⟩

theorem decodeLatin1_encodeLatin1 (s : String) (bs : Bytes)
    (h : encodeLatin1 s = .ok bs) : decodeLatin1 bs = s := by
  unfold encodeLatin1 at h
  split at h
  · rename_i hall
    cases h
    unfold decodeLatin1
    simp only [latin1Encodable, List.all_eq_true] at hall
    obtain ⟨d⟩ := s
    congr 1
    simp only [List.map_map]
    rw [List.map_congr_left (fun c hc => ?_), List.map_id]
    have hv := hall c hc
    simp only [decide_eq_true_eq] at hv
    exact Char.ofNat_toNat c
  · cases h

theorem encodeLatin1_length (s : String) (bs : Bytes)
    (h : encodeLatin1 s = .ok bs) : bs.length = s.data.length := by
  unfold encodeLatin1 at h
  split at h
  · cases h; simp
  · cases h

theorem encodeLatin1_lt_256 (s : String) (bs : Bytes)
    (h : encodeLatin1 s = .ok bs) : ∀ b ∈ bs, b < 256 := by
  unfold encodeLatin1 at h
  split at h
  · rename_i hall
    cases h
    simp only [latin1Encodable, List.all_eq_true] at hall
    intro b hb
    simp only [List.mem_map] at hb
    obtain ⟨c, hc, rfl⟩ := hb
    simpa using hall c hc
  · cases h

/-! ### The base64 codec (`base64.encodebytes` / `base64.decodebytes`)

`encodebytes` processes the input in 57-byte chunks, emitting 76 base64 characters
plus `'\n'` per chunk (the final chunk may be shorter and padded with `'='`).
`decodebytes` discards characters outside the base64 alphabet (in particular the
newlines) and decodes 4-character groups back to 3 bytes, honouring `'='` padding. -/

/-- The base64 alphabet: sextet value to character. -/
def b64Char (n : Nat) : Char :=
  if n < 26 then Char.ofNat (65 + n)
  else if n < 52 then Char.ofNat (97 + (n - 26))
  else if n < 62 then Char.ofNat (48 + (n - 52))
  else if n = 62 then '+'
  else '/'

/-- Character to sextet value (`none` off the alphabet). -/
def b64Val (c : Char) : Option Nat :=
  if 65 ≤ c.toNat ∧ c.toNat ≤ 90 then some (c.toNat - 65)
  else if 97 ≤ c.toNat ∧ c.toNat ≤ 122 then some (c.toNat - 97 + 26)
  else if 48 ≤ c.toNat ∧ c.toNat ≤ 57 then some (c.toNat - 48 + 52)
  else if c = '+' then some 62
  else if c = '/' then some 63
  else none

/-- Pure base64 encoding of a byte string, 3 bytes to 4 characters, with `'='` padding. -/
def b64Enc3 : Bytes → List Char
  | [] => []
  | [a] => [b64Char (a / 4), b64Char (a % 4 * 16), '=', '=']
  | [a, b] => [b64Char (a / 4), b64Char (a % 4 * 16 + b / 16), b64Char (b % 16 * 4), '=']
  | a :: b :: c :: rest =>
      b64Char (a / 4) :: b64Char (a % 4 * 16 + b / 16) ::
      b64Char (b % 16 * 4 + c / 64) :: b64Char (c % 64) :: b64Enc3 rest

/-- Characters `decodebytes` actually consumes: the alphabet plus `'='`. -/
def b64Keep (c : Char) : Bool := (b64Val c).isSome || c = '='

/-- Decode 4-character groups back to bytes, honouring `'='` padding. -/
def b64DecQuads : List Char → Bytes
  | c1 :: c2 :: c3 :: c4 :: rest =>
      let v1 := (b64Val c1).getD 0
      let v2 := (b64Val c2).getD 0
      if c3 = '=' then [v1 * 4 + v2 / 16]
      else
        let v3 := (b64Val c3).getD 0
        if c4 = '=' then [v1 * 4 + v2 / 16, v2 % 16 * 16 + v3 / 4]
        else
          let v4 := (b64Val c4).getD 0
          (v1 * 4 + v2 / 16) :: (v2 % 16 * 16 + v3 / 4) :: (v3 % 4 * 64 + v4) :: b64DecQuads rest
  | _ => []

/-- Chunked base64 encoding, structurally recursive on a fuel bound (each step
consumes at least one byte, so `d.length` steps always suffice). -/
def encodebytesAux : Nat → Bytes → List Char
  | 0, _ => []
  | fuel + 1, d =>
    match d with
    | [] => []
    | x :: xs => b64Enc3 ((x :: xs).take 57) ++ '\n' :: encodebytesAux fuel ((x :: xs).drop 57)

/-- `base64.encodebytes(data).decode('ascii')`: 57-byte chunks, each encoded and
terminated by a newline (the output is pure ASCII, so the `ascii` decode succeeds). -/
def encodebytes (d : Bytes) : List Char := encodebytesAux d.length d

/-- `s.encode('ascii')` followed by `base64.decodebytes`: raises on a non-ASCII
character, otherwise discards non-alphabet characters and decodes. -/
def decodebytesStr (s : String) : Except PyError Bytes :=
  if s.data.all (fun c => c.toNat < 128) then .ok (b64DecQuads (s.data.filter b64Keep))
  else .error .unicodeError

theorem b64Val_b64Char : ∀ n < 64, b64Val (b64Char n) = some n := by decide

theorem b64Char_ne_eq (n : Nat) (h : n < 64) : b64Char n ≠ '=' := by
  intro hc
  have := b64Val_b64Char n h
  rw [hc] at this
  simp [b64Val] at this

theorem b64Keep_b64Char (n : Nat) (h : n < 64) : b64Keep (b64Char n) = true := by
  simp [b64Keep, b64Val_b64Char n h]

theorem b64Char_toNat_lt (n : Nat) (h : n < 64) : (b64Char n).toNat < 128 := by
  revert n h
  decide

theorem b64DecQuads_b64Enc3 (d : Bytes) (h : ∀ b ∈ d, b < 256) :
    b64DecQuads (b64Enc3 d) = d := by
  match d with
  | [] => simp [b64Enc3, b64DecQuads]
  | [a] =>
    have ha : a < 256 := h a (by simp)
    have h1 : a / 4 < 64 := by omega
    have h2 : a % 4 * 16 < 64 := by omega
    simp only [b64Enc3, b64DecQuads, b64Val_b64Char _ h1, b64Val_b64Char _ h2,
      if_pos rfl, Option.getD_some]
    simp only [if_true, List.cons.injEq, and_true]
    omega
  | [a, b] =>
    have ha : a < 256 := h a (by simp)
    have hb : b < 256 := h b (by simp)
    have h1 : a / 4 < 64 := by omega
    have h2 : a % 4 * 16 + b / 16 < 64 := by omega
    have h3 : b % 16 * 4 < 64 := by omega
    simp only [b64Enc3, b64DecQuads, b64Val_b64Char _ h1, b64Val_b64Char _ h2,
      b64Val_b64Char _ h3, if_neg (b64Char_ne_eq _ h3), if_pos rfl, Option.getD_some]
    simp only [if_true, List.cons.injEq, and_true]
    constructor <;> omega
  | a :: b :: c :: d' :: rest =>
    have ha : a < 256 := h a (by simp)
    have hb : b < 256 := h b (by simp)
    have hc : c < 256 := h c (by simp)
    have h1 : a / 4 < 64 := by omega
    have h2 : a % 4 * 16 + b / 16 < 64 := by omega
    have h3 : b % 16 * 4 + c / 64 < 64 := by omega
    have h4 : c % 64 < 64 := by omega
    simp only [b64Enc3, b64DecQuads, b64Val_b64Char _ h1, b64Val_b64Char _ h2,
      b64Val_b64Char _ h3, b64Val_b64Char _ h4, if_neg (b64Char_ne_eq _ h3),
      if_neg (b64Char_ne_eq _ h4), Option.getD_some]
    have ih := b64DecQuads_b64Enc3 (d' :: rest) (fun x hx => h x (by simp at hx ⊢; tauto))
    simp only [List.cons.injEq]
    refine ⟨by omega, by omega, by omega, ih⟩
  | [a, b, c] =>
    have ha : a < 256 := h a (by simp)
    have hb : b < 256 := h b (by simp)
    have hc : c < 256 := h c (by simp)
    have h1 : a / 4 < 64 := by omega
    have h2 : a % 4 * 16 + b / 16 < 64 := by omega
    have h3 : b % 16 * 4 + c / 64 < 64 := by omega
    have h4 : c % 64 < 64 := by omega
    simp only [b64Enc3, b64DecQuads, b64Val_b64Char _ h1, b64Val_b64Char _ h2,
      b64Val_b64Char _ h3, b64Val_b64Char _ h4, if_neg (b64Char_ne_eq _ h3),
      if_neg (b64Char_ne_eq _ h4), Option.getD_some]
    simp only [List.cons.injEq, and_true]
    refine ⟨by omega, by omega, by omega⟩

theorem b64Enc3_all_keep (d : Bytes) (h : ∀ b ∈ d, b < 256) :
    ∀ c ∈ b64Enc3 d, b64Keep c = true := by
  match d with
  | [] => simp [b64Enc3]
  | [a] =>
    have ha : a < 256 := h a (by simp)
    intro c hc
    simp only [b64Enc3, List.mem_cons, List.not_mem_nil, or_false] at hc
    rcases hc with rfl | rfl | rfl | rfl
    · exact b64Keep_b64Char _ (by omega)
    · exact b64Keep_b64Char _ (by omega)
    · simp [b64Keep]
    · simp [b64Keep]
  | [a, b] =>
    have ha : a < 256 := h a (by simp)
    have hb : b < 256 := h b (by simp)
    intro c hc
    simp only [b64Enc3, List.mem_cons, List.not_mem_nil, or_false] at hc
    rcases hc with rfl | rfl | rfl | rfl
    · exact b64Keep_b64Char _ (by omega)
    · exact b64Keep_b64Char _ (by omega)
    · exact b64Keep_b64Char _ (by omega)
    · simp [b64Keep]
  | a :: b :: c :: rest =>
    have ha : a < 256 := h a (by simp)
    have hb : b < 256 := h b (by simp)
    have hcv : c < 256 := h c (by simp)
    intro x hx
    simp only [b64Enc3, List.mem_cons] at hx
    rcases hx with rfl | rfl | rfl | rfl | hx
    · exact b64Keep_b64Char _ (by omega)
    · exact b64Keep_b64Char _ (by omega)
    · exact b64Keep_b64Char _ (by omega)
    · exact b64Keep_b64Char _ (by omega)
    · exact b64Enc3_all_keep rest (fun y hy => h y (by simp [hy])) x hx

theorem b64Enc3_all_lt128 (d : Bytes) (h : ∀ b ∈ d, b < 256) :
    ∀ c ∈ b64Enc3 d, c.toNat < 128 := by
  match d with
  | [] => simp [b64Enc3]
  | [a] =>
    have ha : a < 256 := h a (by simp)
    intro c hc
    simp only [b64Enc3, List.mem_cons, List.not_mem_nil, or_false] at hc
    rcases hc with rfl | rfl | rfl | rfl
    · exact b64Char_toNat_lt _ (by omega)
    · exact b64Char_toNat_lt _ (by omega)
    · decide
    · decide
  | [a, b] =>
    have ha : a < 256 := h a (by simp)
    have hb : b < 256 := h b (by simp)
    intro c hc
    simp only [b64Enc3, List.mem_cons, List.not_mem_nil, or_false] at hc
    rcases hc with rfl | rfl | rfl | rfl
    · exact b64Char_toNat_lt _ (by omega)
    · exact b64Char_toNat_lt _ (by omega)
    · exact b64Char_toNat_lt _ (by omega)
    · decide
  | a :: b :: c :: rest =>
    have ha : a < 256 := h a (by simp)
    have hb : b < 256 := h b (by simp)
    have hcv : c < 256 := h c (by simp)
    intro x hx
    simp only [b64Enc3, List.mem_cons] at hx
    rcases hx with rfl | rfl | rfl | rfl | hx
    · exact b64Char_toNat_lt _ (by omega)
    · exact b64Char_toNat_lt _ (by omega)
    · exact b64Char_toNat_lt _ (by omega)
    · exact b64Char_toNat_lt _ (by omega)
    · exact b64Enc3_all_lt128 rest (fun y hy => h y (by simp [hy])) x hx

theorem b64Enc3_append (xs ys : Bytes) (h : xs.length % 3 = 0) :
    b64Enc3 (xs ++ ys) = b64Enc3 xs ++ b64Enc3 ys := by
  match xs with
  | [] => simp [b64Enc3]
  | [_] => simp at h
  | [_, _] => simp at h
  | a :: b :: c :: rest =>
    have h3 : rest.length % 3 = 0 := by
      simp only [List.length_cons] at h
      omega
    have ih := b64Enc3_append rest ys h3
    simp [b64Enc3, ih]

theorem filter_encodebytesAux (fuel : Nat) (d : Bytes) (hf : d.length ≤ fuel)
    (h : ∀ b ∈ d, b < 256) : (encodebytesAux fuel d).filter b64Keep = b64Enc3 d := by
  induction fuel generalizing d with
  | zero =>
    have : d = [] := List.eq_nil_of_length_eq_zero (by omega)
    subst this
    simp [encodebytesAux, b64Enc3]
  | succ fuel ih =>
    match d with
    | [] => simp [encodebytesAux, b64Enc3]
    | x :: xs =>
      rw [encodebytesAux]
      rw [List.filter_append]
      have h57 : ∀ b ∈ (x :: xs).take 57, b < 256 := fun b hb => h b (List.mem_of_mem_take hb)
      have hdrop : ∀ b ∈ (x :: xs).drop 57, b < 256 := fun b hb => h b (List.mem_of_mem_drop hb)
      have hlen : ((x :: xs).drop 57).length ≤ fuel := by
        simp only [List.length_drop, List.length_cons]
        simp only [List.length_cons] at hf
        omega
      rw [List.filter_eq_self.mpr (b64Enc3_all_keep _ h57)]
      have hnl : List.filter b64Keep ('\n' :: encodebytesAux fuel ((x :: xs).drop 57)) =
          List.filter b64Keep (encodebytesAux fuel ((x :: xs).drop 57)) := by
        simp [List.filter, b64Keep, b64Val]
      rw [hnl, ih ((x :: xs).drop 57) hlen hdrop]
      by_cases hle : (x :: xs).length ≤ 57
      · rw [List.take_of_length_le hle, List.drop_of_length_le hle]
        simp [b64Enc3]
      · have hmod : ((x :: xs).take 57).length % 3 = 0 := by
          rw [List.length_take]
          have : min 57 (x :: xs).length = 57 := by omega
          rw [this]
        rw [← b64Enc3_append _ _ hmod, List.take_append_drop]

theorem filter_encodebytes (d : Bytes) (h : ∀ b ∈ d, b < 256) :
    (encodebytes d).filter b64Keep = b64Enc3 d :=
  filter_encodebytesAux d.length d le_rfl h

theorem encodebytesAux_all_lt128 (fuel : Nat) (d : Bytes) (h : ∀ b ∈ d, b < 256) :
    ∀ c ∈ encodebytesAux fuel d, c.toNat < 128 := by
  induction fuel generalizing d with
  | zero => simp [encodebytesAux]
  | succ fuel ih =>
    match d with
    | [] => simp [encodebytesAux]
    | x :: xs =>
      intro c hc
      rw [encodebytesAux] at hc
      rw [List.mem_append, List.mem_cons] at hc
      rcases hc with hc | rfl | hc
      · exact b64Enc3_all_lt128 _ (fun b hb => h b (List.mem_of_mem_take hb)) c hc
      · decide
      · exact ih ((x :: xs).drop 57) (fun b hb => h b (List.mem_of_mem_drop hb)) c hc

theorem encodebytes_all_lt128 (d : Bytes) (h : ∀ b ∈ d, b < 256) :
    ∀ c ∈ encodebytes d, c.toNat < 128 :=
  encodebytesAux_all_lt128 d.length d h

/-- Round trip of the Python base64 path used by the pair envelope:
`base64.decodebytes(base64.encodebytes(d).decode('ascii').encode('ascii')) = d`. -/
theorem decodebytes_encodebytes (d : Bytes) (h : ∀ b ∈ d, b < 256) :
    decodebytesStr ⟨encodebytes d⟩ = .ok d := by
  have hascii : ((encodebytes d).all fun c => decide (c.toNat < 128)) = true := by
    rw [List.all_eq_true]
    intro c hc
    simpa using encodebytes_all_lt128 d h c hc
  unfold decodebytesStr
  rw [if_pos (by simpa using hascii)]
  rw [filter_encodebytes d h, b64DecQuads_b64Enc3 d h]

/-! ### The JSON codec (`json.dumps` / `json.loads`, default options)

The structured values the program stores (`json.dumps(j)` with `ensure_ascii=True`,
separators `", "` and `": "`; `json.loads` with strict parsing). The value space is
JSON-like values over `Int` numbers and valid-Unicode strings; floats and strings
containing lone surrogates are outside the modelled value space (the program never
produces them on the round-trip path). -/

/-- Python JSON-like values: `None`, `bool`, `int`, `str`, `list`, `dict`
(insertion-ordered, string-keyed). -/
inductive Json where
  | null
  | bool (b : Bool)
  | int (n : Int)
  | str (s : String)
  | arr (xs : List Json)
  | obj (kvs : List (String × Json))

/-- `'{'` (written by code point to keep brace characters out of literals). -/
def lbrace : Char := Char.ofNat 123

/-- `'}'`. -/
def rbrace : Char := Char.ofNat 125

/-- Decimal digits, least significant first, structurally recursive on a fuel bound
(`n` itself always suffices since `n / 10 < n` for positive `n`). -/
def natDigitsLEAux : Nat → Nat → List Nat
  | 0, _ => []
  | fuel + 1, n => if n = 0 then [] else (n % 10) :: natDigitsLEAux fuel (n / 10)

/-- Decimal digits of `n`, least significant first (empty for `0`). -/
def natDigitsLE (n : Nat) : List Nat := natDigitsLEAux n n

/-- A decimal digit character. -/
def digitChar (d : Nat) : Char := Char.ofNat (48 + d)

/-- Decimal representation of a natural number (`repr(n)`). -/
def natChars (n : Nat) : List Char :=
  if n = 0 then ['0'] else (natDigitsLE n).reverse.map digitChar

/-- Decimal representation of a Python `int` (`repr(n)`). -/
def intChars (n : Int) : List Char :=
  if n < 0 then '-' :: natChars n.natAbs else natChars n.natAbs

/-- A lowercase hex digit character (as emitted by `\uXXXX` escapes). -/
def hexDig (d : Nat) : Char := Char.ofNat (if d < 10 then 48 + d else 87 + d)

/-- Four-digit lowercase hex representation of `n < 0x10000`. -/
def toHex4 (n : Nat) : List Char :=
  [hexDig (n / 4096 % 16), hexDig (n / 256 % 16), hexDig (n / 16 % 16), hexDig (n % 16)]

/-- `\uXXXX` escape of code point `n`; astral code points use a surrogate pair. -/
def uEsc (n : Nat) : List Char :=
  if n < 65536 then '\\' :: 'u' :: toHex4 n
  else
    '\\' :: 'u' :: toHex4 (55296 + (n - 65536) / 1024) ++
      '\\' :: 'u' :: toHex4 (56320 + (n - 65536) % 1024)

/-- Escape one character as `json.dumps` (with `ensure_ascii=True`) does: `"` and `\`
get backslash escapes, the five named control escapes are used, every other character
outside printable ASCII becomes `\uXXXX`. -/
def escChar (c : Char) : List Char :=
  if c = '"' then ['\\', '"']
  else if c = '\\' then ['\\', '\\']
  else if c = Char.ofNat 8 then ['\\', 'b']
  else if c = '\t' then ['\\', 't']
  else if c = '\n' then ['\\', 'n']
  else if c = Char.ofNat 12 then ['\\', 'f']
  else if c = '\r' then ['\\', 'r']
  else if c.toNat < 32 ∨ 126 < c.toNat then uEsc c.toNat
  else [c]

/-- Serialize a string: quote, escape each character, quote. -/
def dumpStrL (s : String) : List Char :=
  '"' :: ((s.data.map escChar).flatten ++ ['"'])

mutual

/-- `json.dumps` with the default separators (`", "`, `": "`) and `ensure_ascii=True`,
as a character list. -/
def dumpsL : Json → List Char
  | .null => 'n' :: 'u' :: 'l' :: 'l' :: []
  | .bool true => 't' :: 'r' :: 'u' :: 'e' :: []
  | .bool false => 'f' :: 'a' :: 'l' :: 's' :: 'e' :: []
  | .int n => intChars n
  | .str s => dumpStrL s
  | .arr [] => ['[', ']']
  | .arr (x :: xs) => '[' :: (dumpsL x ++ dumpsItems xs ++ [']'])
  | .obj [] => [lbrace, rbrace]
  | .obj ((k, v) :: kvs) =>
      lbrace :: (dumpStrL k ++ ':' :: ' ' :: (dumpsL v ++ dumpsPairs kvs ++ [rbrace]))

/-- The `", "`-separated tail elements of a serialized array. -/
def dumpsItems : List Json → List Char
  | [] => []
  | x :: xs => ',' :: ' ' :: (dumpsL x ++ dumpsItems xs)

/-- The `", "`-separated tail members of a serialized object. -/
def dumpsPairs : List (String × Json) → List Char
  | [] => []
  | (k, v) :: kvs => ',' :: ' ' :: (dumpStrL k ++ ':' :: ' ' :: (dumpsL v ++ dumpsPairs kvs))

end

/-- `json.dumps` as a string. -/
def dumps (v : Json) : String := ⟨dumpsL v⟩

/-- JSON whitespace accepted between tokens (`' '`, `'\t'`, `'\n'`, `'\r'`). -/
def jWs (c : Char) : Bool := c = ' ' || c = '\t' || c = '\n' || c = '\r'

/-- Skip leading JSON whitespace. -/
def skipWs : List Char → List Char
  | [] => []
  | c :: cs => if jWs c then skipWs cs else c :: cs

/-- Is `c` a decimal digit? -/
def isDigitCh (c : Char) : Bool := 48 ≤ c.toNat && c.toNat ≤ 57

/-- Maximal run of decimal digits. -/
def spanDigits : List Char → List Char × List Char
  | [] => ([], [])
  | c :: cs =>
    if isDigitCh c then
      let p := spanDigits cs
      (c :: p.1, p.2)
    else ([], c :: cs)

/-- Value of a big-endian digit run. -/
def digitsVal (ds : List Char) : Nat := ds.foldl (fun a c => a * 10 + (c.toNat - 48)) 0

/-- Hex digit value (`\uXXXX` escapes accept both cases). -/
def hexVal (c : Char) : Option Nat :=
  if 48 ≤ c.toNat ∧ c.toNat ≤ 57 then some (c.toNat - 48)
  else if 97 ≤ c.toNat ∧ c.toNat ≤ 102 then some (c.toNat - 87)
  else if 65 ≤ c.toNat ∧ c.toNat ≤ 70 then some (c.toNat - 55)
  else none

/-- Named escape values (`\" \\ \/ \b \f \n \r \t`). -/
def escVal (e : Char) : Option Char :=
  if e = '"' then some '"'
  else if e = '\\' then some '\\'
  else if e = '/' then some '/'
  else if e = 'b' then some (Char.ofNat 8)
  else if e = 'f' then some (Char.ofNat 12)
  else if e = 'n' then some '\n'
  else if e = 'r' then some '\r'
  else if e = 't' then some '\t'
  else none

/-- Decode a single string-body item (a literal character or one escape sequence,
where a `\uD800-\uDBFF` escape must pair with a following low-surrogate escape —
lone surrogates are outside the modelled value space). Returns the decoded character
and the rest of the input; `none` on a closing quote, an unescaped control character
(strict mode), or a malformed escape. -/
def parseOneChar : List Char → Option (Char × List Char)
  | [] => none
  | c :: cs =>
    if c = '"' then none
    else if c = '\\' then
      match cs with
      | [] => none
      | e :: cs2 =>
        if e = 'u' then
          match cs2 with
          | h1 :: h2 :: h3 :: h4 :: cs3 =>
            match hexVal h1, hexVal h2, hexVal h3, hexVal h4 with
            | some a, some b, some c', some d =>
              let n := a * 4096 + b * 256 + c' * 16 + d
              if 55296 ≤ n ∧ n ≤ 56319 then
                match cs3 with
                | b1 :: b2 :: g1 :: g2 :: g3 :: g4 :: cs4 =>
                  if b1 = '\\' ∧ b2 = 'u' then
                    match hexVal g1, hexVal g2, hexVal g3, hexVal g4 with
                    | some a2, some b2', some c2, some d2 =>
                      let m := a2 * 4096 + b2' * 256 + c2 * 16 + d2
                      if 56320 ≤ m ∧ m ≤ 57343 then
                        some (Char.ofNat (65536 + (n - 55296) * 1024 + (m - 56320)), cs4)
                      else none
                    | _, _, _, _ => none
                  else none
                | _ => none
              else if 56320 ≤ n ∧ n ≤ 57343 then none
              else some (Char.ofNat n, cs3)
            | _, _, _, _ => none
          | _ => none
        else (escVal e).map (fun ec => (ec, cs2))
    else if c.toNat < 32 then none
    else some (c, cs)

/-- Parse a JSON string body (after the opening quote), returning the decoded
characters and the input after the closing quote. Structurally recursive on a fuel
bound; every item consumes at least one character, so callers pass `input.length + 1`. -/
def parseStringBody : Nat → List Char → Option (List Char × List Char)
  | 0, _ => none
  | fuel + 1, cs =>
    match cs with
    | [] => none
    | c :: cs' =>
      if c = '"' then some ([], cs')
      else
        match parseOneChar (c :: cs') with
        | none => none
        | some (ch, rest) => (parseStringBody fuel rest).map (fun p => (ch :: p.1, p.2))

/-- Finish an integer literal: a following `.`/`e`/`E` would start a float, which is
outside the modelled value space. -/
def afterIntVal (neg : Bool) (v : Nat) (r : List Char) : Option (Int × List Char) :=
  match r with
  | [] => some (if neg then -(v : Int) else (v : Int), r)
  | c :: _ =>
    if c = '.' ∨ c = 'e' ∨ c = 'E' then none
    else some (if neg then -(v : Int) else (v : Int), r)

/-- Parse the digits of a JSON number after the optional sign (`0`, or a
nonzero-led digit run). -/
def parseNumBody (neg : Bool) : List Char → Option (Int × List Char)
  | [] => none
  | c :: t =>
    if c = '0' then afterIntVal neg 0 t
    else if isDigitCh c then
      afterIntVal neg (digitsVal (spanDigits (c :: t)).1) (spanDigits (c :: t)).2
    else none

/-- Parse a JSON number (integer grammar: optional `-`, then `0` or a nonzero-led
digit run). -/
def parseNum (cs : List Char) : Option (Int × List Char) :=
  match cs with
  | c :: t => if c = '-' then parseNumBody true t else parseNumBody false (c :: t)
  | [] => parseNumBody false []

mutual

/-- Recursive-descent JSON value parser (`json.loads` grammar), fuel-indexed for
termination; the fuel is an upper bound on nesting work and is chosen large enough
by `loads`. -/
def parseValue : Nat → List Char → Option (Json × List Char)
  | 0, _ => none
  | fuel + 1, cs =>
    match skipWs cs with
    | [] => none
    | c :: rest =>
      if c = '"' then
        (parseStringBody (rest.length + 1) rest).map (fun p => (.str ⟨p.1⟩, p.2))
      else if c = '[' then
        match skipWs rest with
        | [] => none
        | c2 :: r3 =>
          if c2 = ']' then some (.arr [], r3)
          else (parseItems fuel (c2 :: r3)).map (fun p => (.arr p.1, p.2))
      else if c = lbrace then
        match skipWs rest with
        | [] => none
        | c2 :: r3 =>
          if c2 = rbrace then some (.obj [], r3)
          else (parsePairs fuel (c2 :: r3)).map (fun p => (.obj p.1, p.2))
      else if c = 'n' then
        match rest with
        | 'u' :: 'l' :: 'l' :: r => some (.null, r)
        | _ => none
      else if c = 't' then
        match rest with
        | 'r' :: 'u' :: 'e' :: r => some (.bool true, r)
        | _ => none
      else if c = 'f' then
        match rest with
        | 'a' :: 'l' :: 's' :: 'e' :: r => some (.bool false, r)
        | _ => none
      else if c = '-' ∨ isDigitCh c then
        (parseNum (c :: rest)).map (fun p => (.int p.1, p.2))
      else none

/-- Parse the elements of a non-empty array up to and including `]`. -/
def parseItems : Nat → List Char → Option (List Json × List Char)
  | 0, _ => none
  | fuel + 1, cs =>
    match parseValue fuel cs with
    | none => none
    | some (v, r) =>
      match skipWs r with
      | [] => none
      | c :: r2 =>
        if c = ',' then (parseItems fuel r2).map (fun p => (v :: p.1, p.2))
        else if c = ']' then some ([v], r2)
        else none

/-- Parse the members of a non-empty object up to and including `}`. -/
def parsePairs : Nat → List Char → Option (List (String × Json) × List Char)
  | 0, _ => none
  | fuel + 1, cs =>
    match skipWs cs with
    | [] => none
    | c :: r =>
      if c = '"' then
        match parseStringBody (r.length + 1) r with
        | none => none
        | some (k, r2) =>
          match skipWs r2 with
          | [] => none
          | c2 :: r3 =>
            if c2 = ':' then
              match parseValue fuel r3 with
              | none => none
              | some (v, r4) =>
                match skipWs r4 with
                | [] => none
                | c3 :: r5 =>
                  if c3 = ',' then
                    (parsePairs fuel r5).map (fun p => ((⟨k⟩, v) :: p.1, p.2))
                  else if c3 = rbrace then some ([(⟨k⟩, v)], r5)
                  else none
            else none
      else none

end

/-- `json.loads`: parse one value, require only whitespace after it
(`Extra data` otherwise); any failure raises `JSONDecodeError`. -/
def loads (s : String) : Except PyError Json :=
  match parseValue (s.data.length + 1) s.data with
  | none => .error .jsonDecodeError
  | some (v, r) => if skipWs r = [] then .ok v else .error .jsonDecodeError

/-! ### Round trip of the JSON codec on serialized output -/

/-- Value of a little-endian digit list. -/
def valLE : List Nat → Nat
  | [] => 0
  | d :: t => d + 10 * valLE t

/-- The characters that can follow a serialized number inside serialized output:
an element/member separator, a closing bracket, or end of input. -/
def numSafe : List Char → Prop
  | [] => True
  | c :: _ => c = ',' ∨ c = ']' ∨ c = rbrace

theorem digitChar_toNat : ∀ d < 10, (digitChar d).toNat = 48 + d := by decide

theorem isDigitCh_digitChar : ∀ d < 10, isDigitCh (digitChar d) = true := by decide

theorem natDigitsLEAux_lt10 (fuel n : Nat) : ∀ d ∈ natDigitsLEAux fuel n, d < 10 := by
  induction fuel generalizing n with
  | zero => simp [natDigitsLEAux]
  | succ fuel ih =>
    intro d hd
    rw [natDigitsLEAux] at hd
    split at hd
    · simp at hd
    · rcases List.mem_cons.mp hd with rfl | hd
      · omega
      · exact ih (n / 10) d hd

theorem valLE_natDigitsLEAux (fuel n : Nat) (h : n ≤ fuel) :
    valLE (natDigitsLEAux fuel n) = n := by
  induction fuel generalizing n with
  | zero =>
    have : n = 0 := by omega
    subst this
    simp [natDigitsLEAux, valLE]
  | succ fuel ih =>
    rw [natDigitsLEAux]
    split
    · rename_i hz; subst hz; simp [valLE]
    · rename_i hz
      rw [valLE, ih (n / 10) (by omega)]
      omega

theorem natDigitsLEAux_msd (fuel n : Nat) (h1 : 1 ≤ n) (h2 : n ≤ fuel) :
    ∃ d t, (natDigitsLEAux fuel n).reverse = d :: t ∧ d ≠ 0 ∧ d < 10 := by
  induction fuel generalizing n with
  | zero => omega
  | succ fuel ih =>
    rw [natDigitsLEAux, if_neg (by omega)]
    by_cases hsmall : n < 10
    · have : n / 10 = 0 := by omega
      rw [this]
      have hz : natDigitsLEAux fuel 0 = [] := by
        cases fuel <;> simp [natDigitsLEAux]
      rw [hz]
      exact ⟨n % 10, [], by simp, by omega, by omega⟩
    · obtain ⟨d, t, ht, hd0, hd10⟩ := ih (n / 10) (by omega) (by omega)
      refine ⟨d, t ++ [n % 10], ?_, hd0, hd10⟩
      simp [ht]

theorem foldl_digits_natDigitsLEAux (fuel n : Nat) (h : n ≤ fuel) (a : Nat) :
    List.foldl (fun x c => x * 10 + (c.toNat - 48)) a
        ((natDigitsLEAux fuel n).reverse.map digitChar) =
      a * 10 ^ (natDigitsLEAux fuel n).length + n := by
  induction fuel generalizing n a with
  | zero =>
    have : n = 0 := by omega
    subst this
    simp [natDigitsLEAux]
  | succ fuel ih =>
    rw [natDigitsLEAux]
    split
    · rename_i hz; subst hz; simp
    · rename_i hz
      simp only [List.reverse_cons, List.map_append, List.foldl_append, List.length_cons,
        List.map_cons, List.map_nil, List.foldl_cons, List.foldl_nil]
      rw [ih (n / 10) (by omega)]
      rw [digitChar_toNat (n % 10) (by omega)]
      have : 48 + n % 10 - 48 = n % 10 := by omega
      rw [this, pow_succ]
      ring_nf
      omega

theorem digitsVal_natChars (n : Nat) : digitsVal (natChars n) = n := by
  unfold natChars
  split
  · rename_i hz; subst hz; decide
  · unfold digitsVal natDigitsLE
    rw [foldl_digits_natDigitsLEAux n n le_rfl 0]
    simp

theorem natChars_digits (n : Nat) : ∀ c ∈ natChars n, isDigitCh c = true := by
  unfold natChars
  split
  · intro c hc; simp at hc; subst hc; decide
  · intro c hc
    simp only [List.mem_map, List.mem_reverse] at hc
    obtain ⟨d, hd, rfl⟩ := hc
    exact isDigitCh_digitChar d (natDigitsLEAux_lt10 n n d hd)

theorem natChars_head (n : Nat) (h : n ≠ 0) :
    ∃ d t, natChars n = digitChar d :: t ∧ d ≠ 0 ∧ d < 10 := by
  unfold natChars
  rw [if_neg h]
  obtain ⟨d, t, ht, hd0, hd10⟩ := natDigitsLEAux_msd n n (by omega) le_rfl
  exact ⟨d, t.map digitChar, by rw [show natDigitsLE n = natDigitsLEAux n n from rfl, ht]; simp,
    hd0, hd10⟩

/-- `rest` does not start with a digit (so a maximal digit run stops there). -/
def notDigitStart : List Char → Prop
  | [] => True
  | c :: _ => isDigitCh c = false

theorem spanDigits_append (ds rest : List Char) (hds : ∀ c ∈ ds, isDigitCh c = true)
    (hrest : notDigitStart rest) :
    spanDigits (ds ++ rest) = (ds, rest) := by
  induction ds with
  | nil =>
    cases rest with
    | nil => rfl
    | cons c t =>
      simp only [notDigitStart] at hrest
      simp only [List.nil_append, spanDigits, hrest, Bool.false_eq_true, if_false]
  | cons c t ih =>
    simp only [List.cons_append, spanDigits, hds c (by simp), if_true, List.append_eq,
      ih (fun x hx => hds x (by simp [hx])), Prod.mk.injEq]

theorem digitChar_ne_zero : ∀ d < 10, d ≠ 0 → digitChar d ≠ '0' := by decide

theorem digitChar_ne_minus : ∀ d < 10, digitChar d ≠ '-' := by decide

theorem afterIntVal_numSafe (neg : Bool) (v : Nat) (rest : List Char) (h : numSafe rest) :
    afterIntVal neg v rest = some (if neg then -(v : Int) else (v : Int), rest) := by
  match rest with
  | [] => rfl
  | c :: t =>
    rcases h with rfl | rfl | rfl <;> rfl

theorem numSafe_not_digit (rest : List Char) (h : numSafe rest) : notDigitStart rest := by
  cases rest with
  | nil => trivial
  | cons c t =>
    simp only [numSafe] at h
    rcases h with rfl | rfl | rfl <;> rfl

theorem parseNumBody_natChars (neg : Bool) (m : Nat) (rest : List Char) (h : numSafe rest) :
    parseNumBody neg (natChars m ++ rest) =
      some (if neg then -(m : Int) else (m : Int), rest) := by
  have hspan : spanDigits (natChars m ++ rest) = (natChars m, rest) :=
    spanDigits_append _ _ (natChars_digits m) (numSafe_not_digit rest h)
  by_cases hm : m = 0
  · subst hm
    show parseNumBody neg ('0' :: rest) = _
    simp only [parseNumBody, if_true]
    rw [afterIntVal_numSafe _ _ _ h]
  · obtain ⟨d, t, ht, hd0, hd10⟩ := natChars_head m hm
    rw [ht, List.cons_append]
    simp only [parseNumBody]
    rw [if_neg (digitChar_ne_zero d hd10 hd0), if_pos (isDigitCh_digitChar d hd10)]
    rw [show digitChar d :: (t ++ rest) = (digitChar d :: t) ++ rest from rfl, ← ht, hspan]
    rw [afterIntVal_numSafe _ _ _ h]
    rw [digitsVal_natChars]

theorem parseNum_intChars (n : Int) (rest : List Char) (h : numSafe rest) :
    parseNum (intChars n ++ rest) = some (n, rest) := by
  by_cases hneg : n < 0
  · unfold intChars
    rw [if_pos hneg, List.cons_append]
    simp only [parseNum, if_true]
    rw [parseNumBody_natChars true n.natAbs rest h]
    simp only [if_true, Option.some.injEq, Prod.mk.injEq, and_true]
    omega
  · unfold intChars
    rw [if_neg hneg]
    have hne : natChars n.natAbs ++ rest ≠ [] := by
      by_cases hm : n.natAbs = 0
      · rw [hm]; simp [natChars]
      · obtain ⟨d, t, ht, _, _⟩ := natChars_head n.natAbs hm
        simp [ht]
    obtain ⟨c, u, hcu⟩ : ∃ c u, natChars n.natAbs ++ rest = c :: u := by
      cases hx : natChars n.natAbs ++ rest with
      | nil => exact absurd hx hne
      | cons c u => exact ⟨c, u, rfl⟩
    have hcm : c ≠ '-' := by
      by_cases hm : n.natAbs = 0
      · rw [hm] at hcu
        simp [natChars] at hcu
        rw [← hcu.1]
        decide
      · obtain ⟨d, t, ht, _, hd10⟩ := natChars_head n.natAbs hm
        rw [ht, List.cons_append] at hcu
        cases hcu
        exact digitChar_ne_minus d hd10
    rw [hcu]
    simp only [parseNum]
    rw [if_neg hcm, ← hcu, parseNumBody_natChars false n.natAbs rest h]
    simp only [Option.some.injEq, Prod.mk.injEq, and_true, if_false, Bool.false_eq_true]
    omega

theorem hexVal_hexDig : ∀ d < 16, hexVal (hexDig d) = some d := by decide

theorem char_toNat_valid (c : Char) :
    c.toNat < 55296 ∨ (57343 < c.toNat ∧ c.toNat < 1114112) := by
  have h : c.val.toNat.isValidChar := c.valid
  rcases h with h | ⟨h1, h2⟩
  · exact Or.inl h
  · exact Or.inr ⟨h1, h2⟩

theorem parseOneChar_uEsc_bmp (n : Nat) (hlt : n < 65536) (hns : ¬(55296 ≤ n ∧ n ≤ 57343))
    (cont : List Char) :
    parseOneChar ('\\' :: 'u' :: (toHex4 n ++ cont)) = some (Char.ofNat n, cont) := by
  have e1 := hexVal_hexDig (n / 4096 % 16) (by omega)
  have e2 := hexVal_hexDig (n / 256 % 16) (by omega)
  have e3 := hexVal_hexDig (n / 16 % 16) (by omega)
  have e4 := hexVal_hexDig (n % 16) (by omega)
  have hrec : n / 4096 % 16 * 4096 + n / 256 % 16 * 256 + n / 16 % 16 * 16 + n % 16 = n := by
    omega
  have hns1 : ¬(55296 ≤ n ∧ n ≤ 56319) := by omega
  have hns2 : ¬(56320 ≤ n ∧ n ≤ 57343) := by omega
  simp only [toHex4, List.cons_append, List.nil_append]
  simp only [parseOneChar, e1, e2, e3, e4, hrec]
  simp [hns1, hns2]

theorem parseOneChar_surrogatePair (h1 h2 h3 h4 g1 g2 g3 g4 : Char)
    (a b c' d a2 b2 c2 d2 : Nat)
    (e1 : hexVal h1 = some a) (e2 : hexVal h2 = some b) (e3 : hexVal h3 = some c')
    (e4 : hexVal h4 = some d) (f1 : hexVal g1 = some a2) (f2 : hexVal g2 = some b2)
    (f3 : hexVal g3 = some c2) (f4 : hexVal g4 = some d2)
    (hhi1 : 55296 ≤ a * 4096 + b * 256 + c' * 16 + d)
    (hhi2 : a * 4096 + b * 256 + c' * 16 + d ≤ 56319)
    (hlo1 : 56320 ≤ a2 * 4096 + b2 * 256 + c2 * 16 + d2)
    (hlo2 : a2 * 4096 + b2 * 256 + c2 * 16 + d2 ≤ 57343)
    (cont : List Char) :
    parseOneChar ('\\' :: 'u' :: h1 :: h2 :: h3 :: h4 ::
        '\\' :: 'u' :: g1 :: g2 :: g3 :: g4 :: cont) =
      some (Char.ofNat (65536 + (a * 4096 + b * 256 + c' * 16 + d - 55296) * 1024 +
        (a2 * 4096 + b2 * 256 + c2 * 16 + d2 - 56320)), cont) := by
  simp only [parseOneChar, e1, e2, e3, e4, f1, f2, f3, f4]
  simp [hhi1, hhi2, hlo1, hlo2]

theorem parseOneChar_uEsc_astral (n : Nat) (h1 : 65536 ≤ n) (h2 : n < 1114112)
    (cont : List Char) :
    parseOneChar ('\\' :: 'u' :: (toHex4 (55296 + (n - 65536) / 1024) ++
      ('\\' :: 'u' :: (toHex4 (56320 + (n - 65536) % 1024) ++ cont)))) =
      some (Char.ofNat n, cont) := by
  have hhi : 55296 + (n - 65536) / 1024 < 65536 := by omega
  have hlo : 56320 + (n - 65536) % 1024 < 65536 := by omega
  have key := parseOneChar_surrogatePair
    (hexDig ((55296 + (n - 65536) / 1024) / 4096 % 16))
    (hexDig ((55296 + (n - 65536) / 1024) / 256 % 16))
    (hexDig ((55296 + (n - 65536) / 1024) / 16 % 16))
    (hexDig ((55296 + (n - 65536) / 1024) % 16))
    (hexDig ((56320 + (n - 65536) % 1024) / 4096 % 16))
    (hexDig ((56320 + (n - 65536) % 1024) / 256 % 16))
    (hexDig ((56320 + (n - 65536) % 1024) / 16 % 16))
    (hexDig ((56320 + (n - 65536) % 1024) % 16))
    ((55296 + (n - 65536) / 1024) / 4096 % 16)
    ((55296 + (n - 65536) / 1024) / 256 % 16)
    ((55296 + (n - 65536) / 1024) / 16 % 16)
    ((55296 + (n - 65536) / 1024) % 16)
    ((56320 + (n - 65536) % 1024) / 4096 % 16)
    ((56320 + (n - 65536) % 1024) / 256 % 16)
    ((56320 + (n - 65536) % 1024) / 16 % 16)
    ((56320 + (n - 65536) % 1024) % 16)
    (hexVal_hexDig _ (by omega)) (hexVal_hexDig _ (by omega))
    (hexVal_hexDig _ (by omega)) (hexVal_hexDig _ (by omega))
    (hexVal_hexDig _ (by omega)) (hexVal_hexDig _ (by omega))
    (hexVal_hexDig _ (by omega)) (hexVal_hexDig _ (by omega))
    (by omega) (by omega) (by omega) (by omega) cont
  simp only [toHex4, List.cons_append, List.nil_append]
  rw [key]
  rw [show (55296 + (n - 65536) / 1024) / 4096 % 16 * 4096 +
      (55296 + (n - 65536) / 1024) / 256 % 16 * 256 +
      (55296 + (n - 65536) / 1024) / 16 % 16 * 16 +
      (55296 + (n - 65536) / 1024) % 16 - 55296 = (n - 65536) / 1024 from by omega]
  rw [show (56320 + (n - 65536) % 1024) / 4096 % 16 * 4096 +
      (56320 + (n - 65536) % 1024) / 256 % 16 * 256 +
      (56320 + (n - 65536) % 1024) / 16 % 16 * 16 +
      (56320 + (n - 65536) % 1024) % 16 - 56320 = (n - 65536) % 1024 from by omega]
  rw [show 65536 + (n - 65536) / 1024 * 1024 + (n - 65536) % 1024 = n from by omega]

theorem escChar_shape (c : Char) : ∃ d ds, escChar c = d :: ds ∧ d ≠ '"' := by
  unfold escChar
  by_cases h1 : c = '"'
  · simp only [h1, if_pos rfl]
    exact ⟨'\\', _, rfl, by decide⟩
  rw [if_neg h1]
  by_cases h2 : c = '\\'
  · rw [if_pos h2]
    exact ⟨'\\', _, rfl, by decide⟩
  rw [if_neg h2]
  by_cases h3 : c = Char.ofNat 8
  · rw [if_pos h3]
    exact ⟨'\\', _, rfl, by decide⟩
  rw [if_neg h3]
  by_cases h4 : c = '\t'
  · rw [if_pos h4]
    exact ⟨'\\', _, rfl, by decide⟩
  rw [if_neg h4]
  by_cases h5 : c = '\n'
  · rw [if_pos h5]
    exact ⟨'\\', _, rfl, by decide⟩
  rw [if_neg h5]
  by_cases h6 : c = Char.ofNat 12
  · rw [if_pos h6]
    exact ⟨'\\', _, rfl, by decide⟩
  rw [if_neg h6]
  by_cases h7 : c = '\r'
  · rw [if_pos h7]
    exact ⟨'\\', _, rfl, by decide⟩
  rw [if_neg h7]
  by_cases h8 : c.toNat < 32 ∨ 126 < c.toNat
  · rw [if_pos h8]
    unfold uEsc
    by_cases h9 : c.toNat < 65536
    · rw [if_pos h9]
      exact ⟨'\\', _, rfl, by decide⟩
    · rw [if_neg h9]
      exact ⟨'\\', _, rfl, by decide⟩
  · rw [if_neg h8]
    exact ⟨c, [], rfl, h1⟩

theorem parseOneChar_escChar (c : Char) (cont : List Char) :
    parseOneChar (escChar c ++ cont) = some (c, cont) := by
  by_cases h1 : c = '"'
  · subst h1; rfl
  by_cases h2 : c = '\\'
  · subst h2; rfl
  by_cases h3 : c = Char.ofNat 8
  · subst h3; rfl
  by_cases h4 : c = '\t'
  · subst h4; rfl
  by_cases h5 : c = '\n'
  · subst h5; rfl
  by_cases h6 : c = Char.ofNat 12
  · subst h6; rfl
  by_cases h7 : c = '\r'
  · subst h7; rfl
  by_cases h8 : c.toNat < 32 ∨ 126 < c.toNat
  · rw [escChar, if_neg h1, if_neg h2, if_neg h3, if_neg h4, if_neg h5, if_neg h6, if_neg h7,
      if_pos h8]
    rcases char_toNat_valid c with hv | ⟨hv1, hv2⟩
    · rw [uEsc, if_pos (by omega)]
      simp only [List.cons_append, List.append_assoc]
      rw [parseOneChar_uEsc_bmp c.toNat (by omega) (by omega) cont, Char.ofNat_toNat]
    · by_cases ha : c.toNat < 65536
      · rw [uEsc, if_pos ha]
        simp only [List.cons_append, List.append_assoc]
        rw [parseOneChar_uEsc_bmp c.toNat ha (by omega) cont, Char.ofNat_toNat]
      · rw [uEsc, if_neg ha]
        simp only [List.cons_append, List.append_assoc, List.nil_append]
        have := parseOneChar_uEsc_astral c.toNat (by omega) hv2 cont
        simp only [List.cons_append, List.append_assoc] at this
        rw [this, Char.ofNat_toNat]
  · rw [escChar, if_neg h1, if_neg h2, if_neg h3, if_neg h4, if_neg h5, if_neg h6, if_neg h7,
      if_neg h8]
    push_neg at h8
    simp only [List.cons_append, List.nil_append]
    simp only [parseOneChar]
    rw [if_neg h1, if_neg h2, if_neg (by omega : ¬c.toNat < 32)]

theorem escChar_length_pos (c : Char) : 1 ≤ (escChar c).length := by
  obtain ⟨d, ds, hds, _⟩ := escChar_shape c
  rw [hds]
  simp

theorem escBody_length (l : List Char) : l.length ≤ ((l.map escChar).flatten).length := by
  induction l with
  | nil => simp
  | cons c t ih =>
    simp only [List.map_cons, List.flatten_cons, List.length_append, List.length_cons]
    have := escChar_length_pos c
    omega

theorem parseStringBody_escBody (l : List Char) (rest : List Char) (fuel : Nat)
    (hf : l.length < fuel) :
    parseStringBody fuel ((l.map escChar).flatten ++ '"' :: rest) = some (l, rest) := by
  induction l generalizing fuel rest with
  | nil =>
    cases fuel with
    | zero => omega
    | succ f => rfl
  | cons c t ih =>
    cases fuel with
    | zero => omega
    | succ f =>
      obtain ⟨d, ds, hds, hdq⟩ := escChar_shape c
      have hsplit : ((c :: t).map escChar).flatten ++ '"' :: rest =
          d :: (ds ++ ((t.map escChar).flatten ++ '"' :: rest)) := by
        simp only [List.map_cons, List.flatten_cons, List.append_assoc, hds, List.cons_append]
      rw [hsplit]
      simp only [parseStringBody]
      rw [if_neg hdq]
      have hone : parseOneChar (d :: (ds ++ ((t.map escChar).flatten ++ '"' :: rest))) =
          some (c, (t.map escChar).flatten ++ '"' :: rest) := by
        have := parseOneChar_escChar c ((t.map escChar).flatten ++ '"' :: rest)
        rw [hds] at this
        simpa using this
      rw [hone]
      show (parseStringBody f ((t.map escChar).flatten ++ '"' :: rest)).map
          (fun p => (c :: p.1, p.2)) = some (c :: t, rest)
      rw [ih rest f (by simp only [List.length_cons] at hf; omega)]
      rfl

mutual

/-- Fuel needed by `parseValue` for a value (an upper bound on the recursion depth). -/
def jsonFuel : Json → Nat
  | .arr xs => 1 + itemsFuelL xs
  | .obj kvs => 1 + pairsFuelL kvs
  | _ => 1

/-- Fuel needed by `parseItems` for the elements of an array. -/
def itemsFuelL : List Json → Nat
  | [] => 0
  | x :: xs => 1 + jsonFuel x + itemsFuelL xs

/-- Fuel needed by `parsePairs` for the members of an object. -/
def pairsFuelL : List (String × Json) → Nat
  | [] => 0
  | (_, v) :: kvs => 1 + jsonFuel v + pairsFuelL kvs

end

theorem jsonFuel_pos (v : Json) : 1 ≤ jsonFuel v := by
  cases v <;> simp [jsonFuel]

theorem skipWs_cons_of {c : Char} (cs : List Char) (h : jWs c = false) :
    skipWs (c :: cs) = c :: cs := by
  simp [skipWs, h]

theorem skipWs_space (cs : List Char) : skipWs (' ' :: cs) = skipWs cs := by
  simp [skipWs, jWs]

theorem parseValue_space (fuel : Nat) (cs : List Char) :
    parseValue fuel (' ' :: cs) = parseValue fuel cs := by
  cases fuel with
  | zero => rfl
  | succ f => simp only [parseValue, skipWs_space]

theorem parseItems_space (fuel : Nat) (cs : List Char) :
    parseItems fuel (' ' :: cs) = parseItems fuel cs := by
  cases fuel with
  | zero => rfl
  | succ f => simp only [parseItems, parseValue_space]

theorem parsePairs_space (fuel : Nat) (cs : List Char) :
    parsePairs fuel (' ' :: cs) = parsePairs fuel cs := by
  cases fuel with
  | zero => rfl
  | succ f => simp only [parsePairs, skipWs_space]

theorem digitChar_facts : ∀ d < 10, jWs (digitChar d) = false ∧ digitChar d ≠ ']' ∧
    digitChar d ≠ rbrace ∧ digitChar d ≠ '"' ∧ digitChar d ≠ '[' ∧ digitChar d ≠ lbrace ∧
    digitChar d ≠ 'n' ∧ digitChar d ≠ 't' ∧ digitChar d ≠ 'f' := by decide

theorem dumpsL_head_shape (v : Json) :
    ∃ c t, dumpsL v = c :: t ∧ jWs c = false ∧ c ≠ ']' ∧ c ≠ rbrace := by
  cases v with
  | null => exact ⟨'n', "ull".data, rfl, rfl, by decide, by decide⟩
  | bool b =>
    cases b
    · exact ⟨'f', "alse".data, rfl, rfl, by decide, by decide⟩
    · exact ⟨'t', "rue".data, rfl, rfl, by decide, by decide⟩
  | int n =>
    show ∃ c t, intChars n = c :: t ∧ _
    unfold intChars
    by_cases hn : n < 0
    · rw [if_pos hn]
      exact ⟨'-', _, rfl, by decide, by decide, by decide⟩
    · rw [if_neg hn]
      by_cases hz : n.natAbs = 0
      · have h0 : natChars n.natAbs = ['0'] := by rw [hz]; rfl
        exact ⟨'0', [], h0, by decide, by decide, by decide⟩
      · obtain ⟨d, t, ht, _, hd10⟩ := natChars_head n.natAbs hz
        obtain ⟨f1, f2, f3, _⟩ := digitChar_facts d hd10
        exact ⟨digitChar d, t, ht, f1, f2, f3⟩
  | str s => exact ⟨'"', _, rfl, by decide, by decide, by decide⟩
  | arr xs =>
    cases xs with
    | nil => exact ⟨'[', _, rfl, by decide, by decide, by decide⟩
    | cons x t => exact ⟨'[', _, rfl, by decide, by decide, by decide⟩
  | obj kvs =>
    cases kvs with
    | nil => exact ⟨lbrace, _, rfl, by decide, by decide, by decide⟩
    | cons kv t =>
      obtain ⟨k, v⟩ := kv
      exact ⟨lbrace, _, rfl, by decide, by decide, by decide⟩

theorem numSafe_dumpsItems (xs : List Json) (rest : List Char) :
    numSafe (dumpsItems xs ++ ']' :: rest) := by
  cases xs with
  | nil => simp [dumpsItems, numSafe]
  | cons y ys => simp [dumpsItems, numSafe]

theorem numSafe_dumpsPairs (kvs : List (String × Json)) (rest : List Char) :
    numSafe (dumpsPairs kvs ++ rbrace :: rest) := by
  cases kvs with
  | nil => simp [dumpsPairs, numSafe]
  | cons kv t =>
    obtain ⟨k, v⟩ := kv
    simp [dumpsPairs, numSafe]
theorem parseValue_null (fuel : Nat) (r : List Char) :
    parseValue (fuel + 1) ('n' :: 'u' :: 'l' :: 'l' :: r) = some (.null, r) := by
  simp [parseValue, skipWs, jWs, show ('n' : Char) ≠ lbrace from by decide]

theorem parseValue_true (fuel : Nat) (r : List Char) :
    parseValue (fuel + 1) ('t' :: 'r' :: 'u' :: 'e' :: r) = some (.bool true, r) := by
  simp [parseValue, skipWs, jWs, show ('t' : Char) ≠ lbrace from by decide]

theorem parseValue_false (fuel : Nat) (r : List Char) :
    parseValue (fuel + 1) ('f' :: 'a' :: 'l' :: 's' :: 'e' :: r) = some (.bool false, r) := by
  simp [parseValue, skipWs, jWs, show ('f' : Char) ≠ lbrace from by decide]

theorem parseValue_quote (fuel : Nat) (r : List Char) :
    parseValue (fuel + 1) ('"' :: r) =
      (parseStringBody (r.length + 1) r).map (fun p => (.str ⟨p.1⟩, p.2)) := by
  simp [parseValue, skipWs, jWs]

theorem parseValue_arr_nil (fuel : Nat) (r : List Char) :
    parseValue (fuel + 1) ('[' :: ']' :: r) = some (.arr [], r) := by
  simp [parseValue, skipWs, jWs]

theorem parseValue_arr_cons (fuel : Nat) (c2 : Char) (r3 : List Char)
    (h1 : jWs c2 = false) (h2 : c2 ≠ ']') :
    parseValue (fuel + 1) ('[' :: c2 :: r3) =
      (parseItems fuel (c2 :: r3)).map (fun p => (.arr p.1, p.2)) := by
  simp [parseValue, skipWs_cons_of _ (show jWs '[' = false from by decide),
    skipWs_cons_of _ h1, h2]

theorem parseValue_obj_nil (fuel : Nat) (r : List Char) :
    parseValue (fuel + 1) (lbrace :: rbrace :: r) = some (.obj [], r) := by
  simp [parseValue, skipWs_cons_of _ (show jWs lbrace = false from by decide),
    skipWs_cons_of _ (show jWs rbrace = false from by decide),
    show lbrace ≠ '"' from by decide, show lbrace ≠ '[' from by decide]

theorem parseValue_obj_cons (fuel : Nat) (c2 : Char) (r3 : List Char)
    (h1 : jWs c2 = false) (h2 : c2 ≠ rbrace) :
    parseValue (fuel + 1) (lbrace :: c2 :: r3) =
      (parsePairs fuel (c2 :: r3)).map (fun p => (.obj p.1, p.2)) := by
  simp [parseValue, skipWs_cons_of _ (show jWs lbrace = false from by decide),
    skipWs_cons_of _ h1, h2, show lbrace ≠ '"' from by decide,
    show lbrace ≠ '[' from by decide]

theorem parseValue_num (fuel : Nat) (c : Char) (r : List Char)
    (hws : jWs c = false) (hq : c ≠ '"') (hlb : c ≠ '[') (hbr : c ≠ lbrace)
    (hn : c ≠ 'n') (ht : c ≠ 't') (hf : c ≠ 'f') (hd : c = '-' ∨ isDigitCh c = true) :
    parseValue (fuel + 1) (c :: r) = (parseNum (c :: r)).map (fun p => (.int p.1, p.2)) := by
  simp [parseValue, skipWs_cons_of _ hws, hq, hlb, hbr, hn, ht, hf, hd]

theorem intChars_head_facts (n : Int) :
    ∃ c t, intChars n = c :: t ∧ jWs c = false ∧ c ≠ '"' ∧ c ≠ '[' ∧ c ≠ lbrace ∧
      c ≠ 'n' ∧ c ≠ 't' ∧ c ≠ 'f' ∧ (c = '-' ∨ isDigitCh c = true) := by
  unfold intChars
  by_cases hn : n < 0
  · rw [if_pos hn]
    exact ⟨'-', _, rfl, by decide, by decide, by decide, by decide, by decide, by decide,
      by decide, Or.inl rfl⟩
  · rw [if_neg hn]
    by_cases hz : n.natAbs = 0
    · have h0 : natChars n.natAbs = ['0'] := by rw [hz]; rfl
      exact ⟨'0', [], h0, by decide, by decide, by decide, by decide, by decide, by decide,
        by decide, Or.inr (by decide)⟩
    · obtain ⟨d, t, ht, hd0, hd10⟩ := natChars_head n.natAbs hz
      obtain ⟨f1, _, _, f4, f5, f6, f7, f8, f9⟩ := digitChar_facts d hd10
      exact ⟨digitChar d, t, ht, f1, f4, f5, f6, f7, f8, f9,
        Or.inr (isDigitCh_digitChar d hd10)⟩

theorem parsePairs_quote (fuel : Nat) (r : List Char) :
    parsePairs (fuel + 1) ('"' :: r) =
      match parseStringBody (r.length + 1) r with
      | none => none
      | some (k, r2) =>
        match skipWs r2 with
        | [] => none
        | c2 :: r3 =>
          if c2 = ':' then
            match parseValue fuel r3 with
            | none => none
            | some (v, r4) =>
              match skipWs r4 with
              | [] => none
              | c3 :: r5 =>
                if c3 = ',' then (parsePairs fuel r5).map (fun p => ((⟨k⟩, v) :: p.1, p.2))
                else if c3 = rbrace then some ([(⟨k⟩, v)], r5)
                else none
          else none := by
  simp [parsePairs, skipWs_cons_of _ (by decide : jWs '"' = false)]

theorem parse_dumps (fuel : Nat) :
    (∀ v rest, jsonFuel v ≤ fuel → numSafe rest →
      parseValue fuel (dumpsL v ++ rest) = some (v, rest)) ∧
    (∀ x xs rest, itemsFuelL (x :: xs) ≤ fuel →
      parseItems fuel (dumpsL x ++ (dumpsItems xs ++ ']' :: rest)) = some (x :: xs, rest)) ∧
    (∀ k v kvs rest, pairsFuelL ((k, v) :: kvs) ≤ fuel →
      parsePairs fuel
        (dumpStrL k ++ ':' :: ' ' :: (dumpsL v ++ (dumpsPairs kvs ++ rbrace :: rest))) =
        some ((k, v) :: kvs, rest)) := by
  induction fuel with
  | zero =>
    refine ⟨?_, ?_, ?_⟩
    · intro v rest hf _
      exact absurd hf (by have := jsonFuel_pos v; omega)
    · intro x xs rest hf
      rw [itemsFuelL] at hf
      exact absurd hf (by omega)
    · intro k v kvs rest hf
      rw [pairsFuelL] at hf
      exact absurd hf (by omega)
  | succ fuel ih =>
    obtain ⟨ihP, ihQ, ihR⟩ := ih
    refine ⟨?_, ?_, ?_⟩
    · intro v rest hfv hsafe
      match v with
      | .null => exact parseValue_null fuel rest
      | .bool true => exact parseValue_true fuel rest
      | .bool false => exact parseValue_false fuel rest
      | .int n =>
        obtain ⟨c, t, hct, hws, hq, hlb, hbr, hn', ht', hf', hd⟩ := intChars_head_facts n
        have hx : dumpsL (.int n) ++ rest = c :: (t ++ rest) := by
          show intChars n ++ rest = _
          rw [hct]
          rfl
        rw [hx, parseValue_num fuel c (t ++ rest) hws hq hlb hbr hn' ht' hf' hd]
        rw [show c :: (t ++ rest) = intChars n ++ rest from by rw [hct]; rfl]
        rw [parseNum_intChars n rest hsafe]
        rfl
      | .str s =>
        have hx : dumpsL (.str s) ++ rest =
            '"' :: ((s.data.map escChar).flatten ++ '"' :: rest) := by
          show dumpStrL s ++ rest = _
          simp [dumpStrL]
        rw [hx, parseValue_quote]
        rw [parseStringBody_escBody s.data rest _ (by
          have h1 := escBody_length s.data
          have h2 : ((s.data.map escChar).flatten ++ '"' :: rest).length =
              (s.data.map escChar).flatten.length + (rest.length + 1) := by
            rw [List.length_append, List.length_cons]
          omega)]
        rfl
      | .arr [] => exact parseValue_arr_nil fuel rest
      | .arr (x :: xs) =>
        obtain ⟨c, t, hct, hws, hrb, _⟩ := dumpsL_head_shape x
        have hx : dumpsL (.arr (x :: xs)) ++ rest =
            '[' :: (c :: (t ++ (dumpsItems xs ++ ']' :: rest))) := by
          show ('[' :: (dumpsL x ++ dumpsItems xs ++ [']'])) ++ rest = _
          rw [hct]
          simp
        rw [hx, parseValue_arr_cons fuel c _ hws hrb]
        rw [show c :: (t ++ (dumpsItems xs ++ ']' :: rest)) =
            dumpsL x ++ (dumpsItems xs ++ ']' :: rest) from by rw [hct]; rfl]
        rw [ihQ x xs rest (by simp only [jsonFuel] at hfv; omega)]
        rfl
      | .obj [] => exact parseValue_obj_nil fuel rest
      | .obj ((k, v') :: kvs) =>
        have hx : dumpsL (.obj ((k, v') :: kvs)) ++ rest =
            lbrace :: ('"' :: (((k.data.map escChar).flatten ++ ['"']) ++
              (':' :: ' ' :: (dumpsL v' ++ (dumpsPairs kvs ++ rbrace :: rest))))) := by
          show (lbrace :: (dumpStrL k ++ ':' :: ' ' ::
              (dumpsL v' ++ dumpsPairs kvs ++ [rbrace]))) ++ rest = _
          simp [dumpStrL]
        rw [hx, parseValue_obj_cons fuel '"' _ (by decide) (by decide)]
        rw [show '"' :: (((k.data.map escChar).flatten ++ ['"']) ++
            (':' :: ' ' :: (dumpsL v' ++ (dumpsPairs kvs ++ rbrace :: rest)))) =
            dumpStrL k ++ ':' :: ' ' :: (dumpsL v' ++ (dumpsPairs kvs ++ rbrace :: rest))
            from by simp [dumpStrL]]
        rw [ihR k v' kvs rest (by simp only [jsonFuel] at hfv; omega)]
        rfl
    · intro x xs rest hf
      have hbx : jsonFuel x ≤ fuel := by rw [itemsFuelL] at hf; omega
      have hv := ihP x (dumpsItems xs ++ ']' :: rest) hbx (numSafe_dumpsItems xs rest)
      simp only [parseItems, hv]
      cases xs with
      | nil =>
        simp only [dumpsItems, List.nil_append]
        rw [skipWs_cons_of _ (by decide : jWs ']' = false)]
        simp
      | cons y ys =>
        simp only [dumpsItems, List.cons_append]
        rw [skipWs_cons_of _ (by decide : jWs ',' = false)]
        have hby : itemsFuelL (y :: ys) ≤ fuel := by
          rw [itemsFuelL] at hf
          have := jsonFuel_pos x
          omega
        have := ihQ y ys rest hby
        simp only [List.append_assoc] at this ⊢
        simp [parseItems_space, this]
    · intro k v kvs rest hf
      have hx : dumpStrL k ++ ':' :: ' ' :: (dumpsL v ++ (dumpsPairs kvs ++ rbrace :: rest)) =
          '"' :: ((k.data.map escChar).flatten ++ '"' ::
            (':' :: ' ' :: (dumpsL v ++ (dumpsPairs kvs ++ rbrace :: rest)))) := by
        simp [dumpStrL]
      rw [hx, parsePairs_quote]
      rw [parseStringBody_escBody k.data
        (':' :: ' ' :: (dumpsL v ++ (dumpsPairs kvs ++ rbrace :: rest))) _ (by
        have h1 := escBody_length k.data
        have h2 : ((k.data.map escChar).flatten ++ '"' ::
            (':' :: ' ' :: (dumpsL v ++ (dumpsPairs kvs ++ rbrace :: rest)))).length =
            (k.data.map escChar).flatten.length +
              ((':' :: ' ' :: (dumpsL v ++ (dumpsPairs kvs ++ rbrace :: rest))).length + 1) := by
          rw [List.length_append, List.length_cons]
        omega)]
      show (match skipWs (':' :: ' ' :: (dumpsL v ++ (dumpsPairs kvs ++ rbrace :: rest))) with
        | [] => none
        | c2 :: r3 =>
          if c2 = ':' then
            match parseValue fuel r3 with
            | none => none
            | some (v', r4) =>
              match skipWs r4 with
              | [] => none
              | c3 :: r5 =>
                if c3 = ',' then
                  (parsePairs fuel r5).map (fun p => ((⟨k.data⟩, v') :: p.1, p.2))
                else if c3 = rbrace then some ([(⟨k.data⟩, v')], r5)
                else none
          else none) = some ((k, v) :: kvs, rest)
      rw [skipWs_cons_of _ (by decide : jWs ':' = false)]
      have hbv : jsonFuel v ≤ fuel := by rw [pairsFuelL] at hf; omega
      have hv := ihP v (dumpsPairs kvs ++ rbrace :: rest) hbv (numSafe_dumpsPairs kvs rest)
      simp only [if_pos rfl, parseValue_space, hv]
      cases kvs with
      | nil =>
        simp only [dumpsPairs, List.nil_append]
        rw [skipWs_cons_of _ (by decide : jWs rbrace = false)]
        simp [show rbrace ≠ ',' from by decide]
      | cons kv t =>
        obtain ⟨k2, v2⟩ := kv
        simp only [dumpsPairs, List.cons_append]
        rw [skipWs_cons_of _ (by decide : jWs ',' = false)]
        have hbt : pairsFuelL ((k2, v2) :: t) ≤ fuel := by
          rw [pairsFuelL] at hf
          have := jsonFuel_pos v
          omega
        have := ihR k2 v2 t rest hbt
        simp only [List.append_assoc] at this ⊢
        simp [parsePairs_space, this]

mutual

theorem jsonFuel_le : ∀ v : Json, jsonFuel v ≤ (dumpsL v).length + 1
  | .null => by simp [jsonFuel, dumpsL]
  | .bool true => by simp [jsonFuel, dumpsL]
  | .bool false => by simp [jsonFuel, dumpsL]
  | .int n => by simp [jsonFuel]
  | .str s => by simp [jsonFuel]
  | .arr [] => by simp [jsonFuel, itemsFuelL]
  | .arr (x :: xs) => by
    have h1 := itemsFuelL_le (x :: xs)
    simp only [dumpsItems, List.length_cons, List.length_append] at h1
    simp only [jsonFuel, dumpsL, List.length_cons, List.length_append]
    omega
  | .obj [] => by simp [jsonFuel, pairsFuelL]
  | .obj ((k, v) :: kvs) => by
    have h1 := pairsFuelL_le ((k, v) :: kvs)
    simp only [dumpsPairs, List.length_cons, List.length_append] at h1
    simp only [jsonFuel, dumpsL, List.length_cons, List.length_append]
    omega

theorem itemsFuelL_le : ∀ xs : List Json, itemsFuelL xs ≤ (dumpsItems xs).length
  | [] => by simp [itemsFuelL, dumpsItems]
  | x :: xs => by
    have h1 := jsonFuel_le x
    have h2 := itemsFuelL_le xs
    simp only [itemsFuelL, dumpsItems, List.length_cons, List.length_append]
    omega

theorem pairsFuelL_le : ∀ kvs : List (String × Json), pairsFuelL kvs ≤ (dumpsPairs kvs).length
  | [] => by simp [pairsFuelL, dumpsPairs]
  | (k, v) :: kvs => by
    have h1 := jsonFuel_le v
    have h2 := pairsFuelL_le kvs
    simp only [pairsFuelL, dumpsPairs, List.length_cons, List.length_append]
    omega

end

/-- Round trip of the modelled `json` codec: `json.loads(json.dumps(v)) == v`. -/
theorem loads_dumps (v : Json) : loads (dumps v) = .ok v := by
  unfold loads dumps
  have hb := (parse_dumps ((dumpsL v).length + 1)).1 v []
    (by have := jsonFuel_le v; omega) trivial
  rw [List.append_nil] at hb
  show (match parseValue ((dumpsL v).length + 1) (dumpsL v) with
    | none => (.error .jsonDecodeError : Except PyError Json)
    | some (v', r) => if skipWs r = [] then .ok v' else .error .jsonDecodeError) = .ok v
  rw [hb]
  rfl

theorem hexDig_toNat_lt : ∀ d < 16, (hexDig d).toNat < 128 := by decide

theorem digitChar_toNat_lt : ∀ d < 10, (digitChar d).toNat < 128 := by decide

theorem toHex4_all_lt128 (n : Nat) : ∀ x ∈ toHex4 n, x.toNat < 128 := by
  intro x hx
  simp only [toHex4, List.mem_cons, List.not_mem_nil, or_false] at hx
  rcases hx with rfl | rfl | rfl | rfl <;> exact hexDig_toNat_lt _ (by omega)

theorem uEsc_all_lt128 (n : Nat) : ∀ x ∈ uEsc n, x.toNat < 128 := by
  intro x hx
  unfold uEsc at hx
  split at hx
  · rcases List.mem_cons.mp hx with rfl | hx
    · decide
    rcases List.mem_cons.mp hx with rfl | hx
    · decide
    exact toHex4_all_lt128 n x hx
  · rcases List.mem_cons.mp hx with rfl | hx
    · decide
    rcases List.mem_cons.mp hx with rfl | hx
    · decide
    rcases List.mem_append.mp hx with hx | hx
    · exact toHex4_all_lt128 _ x hx
    rcases List.mem_cons.mp hx with rfl | hx
    · decide
    rcases List.mem_cons.mp hx with rfl | hx
    · decide
    exact toHex4_all_lt128 _ x hx

theorem escChar_all_lt128 (c : Char) : ∀ x ∈ escChar c, x.toNat < 128 := by
  intro x hx
  unfold escChar at hx
  split at hx
  · simp at hx; rcases hx with rfl | rfl <;> decide
  · split at hx
    · simp at hx; rcases hx with rfl | rfl <;> decide
    · split at hx
      · simp at hx; rcases hx with rfl | rfl <;> decide
      · split at hx
        · simp at hx; rcases hx with rfl | rfl <;> decide
        · split at hx
          · simp at hx; rcases hx with rfl | rfl <;> decide
          · split at hx
            · simp at hx; rcases hx with rfl | rfl <;> decide
            · split at hx
              · simp at hx; rcases hx with rfl | rfl <;> decide
              · split at hx
                · exact uEsc_all_lt128 _ x hx
                · rename_i h8
                  simp at hx
                  subst hx
                  push_neg at h8
                  omega

theorem dumpStrL_all_lt128 (s : String) : ∀ x ∈ dumpStrL s, x.toNat < 128 := by
  intro x hx
  unfold dumpStrL at hx
  simp only [List.mem_cons, List.mem_append, List.mem_flatten, List.mem_map,
    List.not_mem_nil, or_false] at hx
  rcases hx with rfl | ⟨l, ⟨c, _, rfl⟩, hxl⟩ | rfl
  · decide
  · exact escChar_all_lt128 c x hxl
  · decide

theorem intChars_all_lt128 (n : Int) : ∀ x ∈ intChars n, x.toNat < 128 := by
  intro x hx
  unfold intChars at hx
  have hnat : ∀ m : Nat, ∀ y ∈ natChars m, y.toNat < 128 := by
    intro m y hy
    unfold natChars at hy
    split at hy
    · simp at hy; subst hy; decide
    · simp only [List.mem_map, List.mem_reverse] at hy
      obtain ⟨d, hd, rfl⟩ := hy
      exact digitChar_toNat_lt d (natDigitsLEAux_lt10 m m d hd)
  split at hx
  · rcases List.mem_cons.mp hx with rfl | hx
    · decide
    · exact hnat _ x hx
  · exact hnat _ x hx

mutual

theorem dumpsL_all_lt128 : ∀ v : Json, ∀ x ∈ dumpsL v, x.toNat < 128
  | .null => by intro x hx; simp only [dumpsL] at hx; simp at hx
                rcases hx with rfl | rfl | rfl | rfl <;> decide
  | .bool true => by intro x hx; simp only [dumpsL] at hx; simp at hx
                     rcases hx with rfl | rfl | rfl | rfl <;> decide
  | .bool false => by intro x hx; simp only [dumpsL] at hx; simp at hx
                      rcases hx with rfl | rfl | rfl | rfl | rfl <;> decide
  | .int n => intChars_all_lt128 n
  | .str s => dumpStrL_all_lt128 s
  | .arr [] => by intro x hx; simp only [dumpsL] at hx; simp at hx
                  rcases hx with rfl | rfl <;> decide
  | .arr (y :: ys) => by
    intro x hx
    simp only [dumpsL, List.mem_cons, List.mem_append] at hx
    rcases hx with rfl | (hx | hx) | hx
    · decide
    · exact dumpsL_all_lt128 y x hx
    · exact dumpsItems_all_lt128 ys x hx
    · simp at hx; subst hx; decide
  | .obj [] => by intro x hx; simp only [dumpsL] at hx; simp at hx
                  rcases hx with rfl | rfl <;> decide
  | .obj ((k, v) :: kvs) => by
    intro x hx
    simp only [dumpsL, List.mem_cons, List.mem_append] at hx
    rcases hx with rfl | hx | rfl | rfl | (hx | hx) | hx
    · decide
    · exact dumpStrL_all_lt128 k x hx
    · decide
    · decide
    · exact dumpsL_all_lt128 v x hx
    · exact dumpsPairs_all_lt128 kvs x hx
    · simp at hx; subst hx; decide

theorem dumpsItems_all_lt128 : ∀ xs : List Json, ∀ x ∈ dumpsItems xs, x.toNat < 128
  | [] => by intro x hx; simp [dumpsItems] at hx
  | y :: ys => by
    intro x hx
    simp only [dumpsItems, List.mem_cons, List.mem_append] at hx
    rcases hx with rfl | rfl | hx | hx
    · decide
    · decide
    · exact dumpsL_all_lt128 y x hx
    · exact dumpsItems_all_lt128 ys x hx

theorem dumpsPairs_all_lt128 : ∀ kvs : List (String × Json), ∀ x ∈ dumpsPairs kvs, x.toNat < 128
  | [] => by intro x hx; simp [dumpsPairs] at hx
  | (k, v) :: kvs => by
    intro x hx
    simp only [dumpsPairs, List.mem_cons, List.mem_append] at hx
    rcases hx with rfl | rfl | hx | rfl | rfl | hx | hx
    · decide
    · decide
    · exact dumpStrL_all_lt128 k x hx
    · decide
    · decide
    · exact dumpsL_all_lt128 v x hx
    · exact dumpsPairs_all_lt128 kvs x hx

end

/-- `json.dumps` output (with `ensure_ascii=True`) is ASCII, hence latin-1 encodable. -/
theorem latin1Encodable_dumps (v : Json) : latin1Encodable (dumps v) = true := by
  unfold latin1Encodable dumps
  rw [List.all_eq_true]
  intro c hc
  have := dumpsL_all_lt128 v c hc
  simp
  omega

/-! ### `LmdbSingleFileDataset` (`src/lmdb/lmdbDataset.py`, lines 11-404)

The external LMDB engine (an out-of-scope collaborator, spec §4.1) is modelled as an
association list from encoded keys to values with a capacity bound: `put` signals
`MapFullError` when committing would exceed `map_size` and does not partially apply.
The `with self.__lock:` wrappers of the public methods are identities in this
sequential model, so each method is given directly by its `__noLock_*` body. -/

/-- The contents of one LMDB environment. -/
abbrev Env := List (Bytes × Bytes)

/-- Total stored size of an environment (the quantity bounded by `map_size`). -/
def envSize (env : Env) : Nat := (env.map (fun e => e.1.length + e.2.length)).sum

/-- `transaction.put` under the spec §4.1 engine contract: all-or-nothing, raising
`MapFullError` when the committed size would exceed the bound. -/
def envPut (mapSize : Nat) (env : Env) (k v : Bytes) : Except PyError Env :=
  let env' := aput env k v
  if mapSize < envSize env' then .error .mapFull else .ok env'

/-- `LmdbSingleFileDataset`: one LMDB environment handle (`None` when not opened). -/
structure LmdbSingleFileDataset where
  mapSize : Nat
  readOnly : Bool
  lmdbEnv : Option Env

namespace LmdbSingleFileDataset

/-- `DefaultMapSize = 100 TB` (the "single unsharded store" default). -/
def DefaultMapSize : Nat := 100 * 1024 * 1024 * 1024 * 1024

/-- `keys` / `__noLock_keys`: all keys in cursor order, latin-1 decoded. -/
def keys (d : LmdbSingleFileDataset) : Except PyError (List String) :=
  match d.lmdbEnv with
  | none => .error .notOpen
  | some env => .ok (env.map (fun e => decodeLatin1 e.1))

/-- `storeData` / `__noLock_storeData`: read-only check, (type checks are enforced by
the embedding's types), environment check, then `put` of the latin-1 encoded key. -/
def storeData (d : LmdbSingleFileDataset) (key : String) (data : Bytes) :
    LmdbSingleFileDataset × Except PyError Unit :=
  if d.readOnly then (d, .error .readOnlyError)
  else
    match d.lmdbEnv with
    | none => (d, .error .notOpen)
    | some env =>
      match encodeLatin1 key with
      | .error e => (d, .error e)
      | .ok kb =>
        match envPut d.mapSize env kb data with
        | .error e => (d, .error e)
        | .ok env' => ({ d with lmdbEnv := some env' }, .ok ())

/-- `storeString` / `__noLock_storeString`: `storeData(key, s.encode('latin1'))`
(the encode happens at argument evaluation, before `storeData`'s own checks). -/
def storeString (d : LmdbSingleFileDataset) (key s : String) :
    LmdbSingleFileDataset × Except PyError Unit :=
  match encodeLatin1 s with
  | .error e => (d, .error e)
  | .ok sb => storeData d key sb

/-- `storeJson` / `__noLock_storeJson`: `storeString(key, json.dumps(j))`. -/
def storeJson (d : LmdbSingleFileDataset) (key : String) (j : Json) :
    LmdbSingleFileDataset × Except PyError Unit :=
  storeString d key (dumps j)

/-- `storeImage` / `__noLock_storeImage`: `cv.imencode(imageFormat, image)` (the
external codec, a parameter of the model), then `storeData` of the encoded bytes. -/
def storeImage {Img : Type} (imencode : String → Img → Option Bytes)
    (d : LmdbSingleFileDataset) (key : String) (image : Img) (imageFormat : String) :
    LmdbSingleFileDataset × Except PyError Unit :=
  match imencode imageFormat image with
  | none => (d, .error .codecError)
  | some bs => storeData d key bs

/-- `storeDataJsonPair` / `__noLock_storeDataJsonPair`: store the envelope
`{"d": base64.encodebytes(data).decode('ascii'), "j": j}` as JSON. -/
def storeDataJsonPair (d : LmdbSingleFileDataset) (key : String) (data : Bytes) (j : Json) :
    LmdbSingleFileDataset × Except PyError Unit :=
  storeJson d key (.obj [("d", .str ⟨encodebytes data⟩), ("j", j)])

/-- `storeStringJsonPair` / `__noLock_storeStringJsonPair`:
`storeDataJsonPair(key, s.encode('latin1'), j)`. -/
def storeStringJsonPair (d : LmdbSingleFileDataset) (key s : String) (j : Json) :
    LmdbSingleFileDataset × Except PyError Unit :=
  match encodeLatin1 s with
  | .error e => (d, .error e)
  | .ok sb => storeDataJsonPair d key sb j

/-- `storeImageJsonPair` / `__noLock_storeImageJsonPair`: encode the image with the
given format, then `storeDataJsonPair`. -/
def storeImageJsonPair {Img : Type} (imencode : String → Img → Option Bytes)
    (d : LmdbSingleFileDataset) (key : String) (image : Img) (j : Json)
    (imageFormat : String) : LmdbSingleFileDataset × Except PyError Unit :=
  match imencode imageFormat image with
  | none => (d, .error .codecError)
  | some bs => storeDataJsonPair d key bs j

/-- `readData` / `__noLock_readData`: `transaction.get` of the encoded key
(`None` when absent). -/
def readData (d : LmdbSingleFileDataset) (key : String) : Except PyError (Option Bytes) :=
  match d.lmdbEnv with
  | none => .error .notOpen
  | some env =>
    match encodeLatin1 key with
    | .error e => .error e
    | .ok kb => .ok (aget env kb)

/-- `readString` / `__noLock_readString`. -/
def readString (d : LmdbSingleFileDataset) (key : String) : Except PyError (Option String) :=
  match readData d key with
  | .error e => .error e
  | .ok none => .ok none
  | .ok (some b) => .ok (some (decodeLatin1 b))

/-- `readJson` / `__noLock_readJson`. -/
def readJson (d : LmdbSingleFileDataset) (key : String) : Except PyError (Option Json) :=
  match readString d key with
  | .error e => .error e
  | .ok none => .ok none
  | .ok (some s) =>
    match loads s with
    | .error e => .error e
    | .ok j => .ok (some j)

/-- `readImage` / `__noLock_readImage`: `cv.imdecode` of the raw bytes. -/
def readImage {Img : Type} (imdecode : Bytes → Img) (d : LmdbSingleFileDataset)
    (key : String) : Except PyError (Option Img) :=
  match readData d key with
  | .error e => .error e
  | .ok none => .ok none
  | .ok (some b) => .ok (some (imdecode b))

/-- `readDataJsonPair` / `__noLock_readDataJsonPair`: read the JSON envelope, base64
decode field `"d"`, return it with field `"j"`. `none` models the `(None, None)`
return (including a stored JSON `null`, which loads to Python `None` and is caught by
the `is None` check). -/
def readDataJsonPair (d : LmdbSingleFileDataset) (key : String) :
    Except PyError (Option (Bytes × Json)) :=
  match readJson d key with
  | .error e => .error e
  | .ok none => .ok none
  | .ok (some p) =>
    match p with
    | .null => .ok none
    | .obj kvs =>
      match aget kvs "d" with
      | some (.str ds) =>
        match decodebytesStr ds with
        | .error e => .error e
        | .ok data =>
          match aget kvs "j" with
          | some j => .ok (some (data, j))
          | none => .error .keyError
       -- `dataJsonPair["d"].encode` on a non-str value: AttributeError
      | some _ => .error .attributeError
      | none => .error .keyError
    -- subscripting a non-dict value with a string key: TypeError
    | _ => .error .typeError

/-- `readStringJsonPair` / `__noLock_readStringJsonPair`. -/
def readStringJsonPair (d : LmdbSingleFileDataset) (key : String) :
    Except PyError (Option (String × Json)) :=
  match readDataJsonPair d key with
  | .error e => .error e
  | .ok none => .ok none
  | .ok (some (data, j)) => .ok (some (decodeLatin1 data, j))

/-- `readImageJsonPair` / `__noLock_readImageJsonPair`. -/
def readImageJsonPair {Img : Type} (imdecode : Bytes → Img) (d : LmdbSingleFileDataset)
    (key : String) : Except PyError (Option (Img × Json)) :=
  match readDataJsonPair d key with
  | .error e => .error e
  | .ok none => .ok none
  | .ok (some (data, j)) => .ok (some (imdecode data, j))

/-- `delete` / `__noLock_delete`: `transaction.delete` of the encoded key; returns
whether the key was found. The source accesses `self.__lmdbEnv.begin` without a
`None` check, so an unopened dataset raises `AttributeError`. -/
def delete (d : LmdbSingleFileDataset) (key : String) :
    LmdbSingleFileDataset × Except PyError Bool :=
  match d.lmdbEnv with
  | none => (d, .error .attributeError)
  | some env =>
    match encodeLatin1 key with
    | .error e => (d, .error e)
    | .ok kb =>
      ({ d with lmdbEnv := some (adel env kb) }, .ok (aget env kb).isSome)

end LmdbSingleFileDataset

/-! ### `LmdbDataset` (`src/lmdb/lmdbDataset.py`, lines 407-957)

State: per-shard capacity, read-only flag, the Key Index (`self.__keys`, a dict whose
values are shard ids — `Option Nat`, since a Python dict slot can in principle hold
`None`), the shard collection (`self.__lmdbDatasets`, `None` before `__enter__`), and
the cached head index (`self.__lastLmdbDatasetIndex`). Mutating methods return the
post-state paired with the outcome, because mutations made before a raise persist. -/

structure LmdbDataset where
  mapSize : Nat
  readOnly : Bool
  keys : List (String × Option Nat)
  lmdbDatasets : Option (List (Nat × Env))
  lastLmdbDatasetIndex : Option Nat

namespace LmdbDataset

/-- `DefaultMapSize = 1024 MB` (the sharded-dataset default). -/
def DefaultMapSize : Nat := 1024 * 1024 * 1024

/-- `max(self.__lmdbDatasets.keys())` (callers guarantee non-emptiness). -/
def maxIds (shards : List (Nat × Env)) : Nat := (shards.map (·.1)).foldl Nat.max 0

/-- Replace shard `i`'s environment (the in-place mutation of the shard object). -/
def setShard (ds : LmdbDataset) (i : Nat) (env : Env) : LmdbDataset :=
  { ds with lmdbDatasets := ds.lmdbDatasets.map (fun shards => aput shards i env) }

/-- `__noLock_lastLmdbDataset`: `(None, None)` when no shards; otherwise the cached
head index (computing and caching `max(keys)` when unset), with the dict access
`self.__lmdbDatasets[...]` raising `KeyError` on a stale index. -/
def noLock_lastLmdbDataset (ds : LmdbDataset) : LmdbDataset × Except PyError (Option Nat) :=
  match ds.lmdbDatasets with
  | none => (ds, .error .notOpen)
  | some shards =>
    if shards.isEmpty then (ds, .ok none)
    else
      match ds.lastLmdbDatasetIndex with
      | some i =>
        match aget shards i with
        | some _ => (ds, .ok (some i))
        | none => (ds, .error .keyError)
      | none =>
        let m := maxIds shards
        let ds' := { ds with lastLmdbDatasetIndex := some m }
        match aget shards m with
        | some _ => (ds', .ok (some m))
        | none => (ds', .error .keyError)

/-- `__noLock_nextLmdbDatsetIndex` (source spelling): last index + 1, or 0. -/
def noLock_nextLmdbDatsetIndex (ds : LmdbDataset) : LmdbDataset × Except PyError Nat :=
  match noLock_lastLmdbDataset ds with
  | (ds', .error e) => (ds', .error e)
  | (ds', .ok none) => (ds', .ok 0)
  | (ds', .ok (some i)) => (ds', .ok (i + 1))

/-- `__noLock_openNext`: compute the next index, open a fresh single-file dataset
there (a fresh shard directory holds an empty environment), insert it into the
collection and make it the head. -/
def noLock_openNext (ds : LmdbDataset) : LmdbDataset × Except PyError Nat :=
  match noLock_nextLmdbDatsetIndex ds with
  | (ds', .error e) => (ds', .error e)
  | (ds', .ok nextIdx) =>
    match ds'.lmdbDatasets with
    | none => (ds', .error .typeError)
    | some shards =>
      ({ ds' with
          lmdbDatasets := some (aput shards nextIdx [])
          lastLmdbDatasetIndex := some nextIdx }, .ok nextIdx)

/-- `__noLock_getHeadDataset`: raise if not opened; open shard 0 lazily when no head
exists; otherwise the shard at the cached head index (`KeyError` if stale). -/
def noLock_getHeadDataset (ds : LmdbDataset) : LmdbDataset × Except PyError Nat :=
  match ds.lmdbDatasets with
  | none => (ds, .error .notOpen)
  | some shards =>
    match ds.lastLmdbDatasetIndex with
    | none => noLock_openNext ds
    | some i =>
      match aget shards i with
      | some _ => (ds, .ok i)
      | none => (ds, .error .keyError)

/-- `__noLock_getDatasetContaining`: `self.__keys.get(key)`; on a miss (or a stored
`None` value) the *bare* value `None` is returned — modelled as `.ok none` — else the
pair `(i, self.__lmdbDatasets[i])`. -/
def noLock_getDatasetContaining (ds : LmdbDataset) (key : String) :
    Except PyError (Option (Nat × Env)) :=
  match aget ds.keys key with
  | none => .ok none
  | some none => .ok none
  | some (some i) =>
    match ds.lmdbDatasets with
    | none => .error .typeError
    | some shards =>
      match aget shards i with
      | none => .error .keyError
      | some env => .ok (some (i, env))

/-- The common body of the seven `__noLock_store*` methods: a `try` block that checks
key uniqueness and writes through the head shard, an `except lmdb.MapFullError`
handler that opens the next shard (`__noLock_openNext`) and retries the identical
write once on it, and finally `self.__keys[key] = self.__lastLmdbDatasetIndex`.
`store` is the per-variant write against one single-file dataset (a closure over the
payload); the generic `Exception("Key already exists")` is not caught by the
`except lmdb.MapFullError` clause and propagates. -/
def noLock_storeVia
    (store : LmdbSingleFileDataset → LmdbSingleFileDataset × Except PyError Unit)
    (ds : LmdbDataset) (key : String) : LmdbDataset × Except PyError Unit :=
  let tryResult : LmdbDataset × Except PyError Unit :=
    if (aget ds.keys key).isSome then (ds, .error .keyExists)
    else
      match noLock_getHeadDataset ds with
      | (ds1, .error e) => (ds1, .error e)
      | (ds1, .ok hidx) =>
        match ds1.lmdbDatasets.bind (fun shards => aget shards hidx) with
        | none => (ds1, .error .keyError)
        | some env =>
          match store ⟨ds1.mapSize, ds1.readOnly, some env⟩ with
          | (_, .error e) => (ds1, .error e)
          | (d', .ok ()) => (setShard ds1 hidx (d'.lmdbEnv.getD env), .ok ())
  match tryResult with
  | (ds1, .ok ()) =>
    ({ ds1 with keys := aput ds1.keys key ds1.lastLmdbDatasetIndex }, .ok ())
  | (ds1, .error .mapFull) =>
    match noLock_openNext ds1 with
    | (ds2, .error e) => (ds2, .error e)
    | (ds2, .ok nidx) =>
      match ds2.lmdbDatasets.bind (fun shards => aget shards nidx) with
      | none => (ds2, .error .keyError)
      | some env =>
        match store ⟨ds2.mapSize, ds2.readOnly, some env⟩ with
        | (_, .error e) => (ds2, .error e)
        | (d', .ok ()) =>
          let ds3 := setShard ds2 nidx (d'.lmdbEnv.getD env)
          ({ ds3 with keys := aput ds3.keys key ds3.lastLmdbDatasetIndex }, .ok ())
  | (ds1, .error e) => (ds1, .error e)

/-- `storeData` / `__noLock_storeData`. -/
def noLock_storeData (ds : LmdbDataset) (key : String) (data : Bytes) :
    LmdbDataset × Except PyError Unit :=
  noLock_storeVia (fun d => d.storeData key data) ds key

/-- `storeString` / `__noLock_storeString`. -/
def noLock_storeString (ds : LmdbDataset) (key s : String) :
    LmdbDataset × Except PyError Unit :=
  noLock_storeVia (fun d => d.storeString key s) ds key

/-- `storeJson` / `__noLock_storeJson`. -/
def noLock_storeJson (ds : LmdbDataset) (key : String) (j : Json) :
    LmdbDataset × Except PyError Unit :=
  noLock_storeVia (fun d => d.storeJson key j) ds key

/-- `storeImage` / `__noLock_storeImage`: both the normal call and the overflow
retry are `d.storeImage(key, image)` — the `imageFormat` parameter is *not*
forwarded, so the callee's default `".jpg"` applies. -/
def noLock_storeImage {Img : Type} (imencode : String → Img → Option Bytes)
    (ds : LmdbDataset) (key : String) (image : Img) (imageFormat : String) :
    LmdbDataset × Except PyError Unit :=
  noLock_storeVia (fun d => LmdbSingleFileDataset.storeImage imencode d key image ".jpg")
    ds key

/-- `storeDataJsonPair` / `__noLock_storeDataJsonPair`. -/
def noLock_storeDataJsonPair (ds : LmdbDataset) (key : String) (data : Bytes) (j : Json) :
    LmdbDataset × Except PyError Unit :=
  noLock_storeVia (fun d => d.storeDataJsonPair key data j) ds key

/-- `storeStringJsonPair` / `__noLock_storeStringJsonPair`. -/
def noLock_storeStringJsonPair (ds : LmdbDataset) (key s : String) (j : Json) :
    LmdbDataset × Except PyError Unit :=
  noLock_storeVia (fun d => d.storeStringJsonPair key s j) ds key

/-- `storeImageJsonPair` / `__noLock_storeImageJsonPair`: as with `storeImage`, the
`imageFormat` parameter is not forwarded to `d.storeImageJsonPair(key, image, j)`. -/
def noLock_storeImageJsonPair {Img : Type} (imencode : String → Img → Option Bytes)
    (ds : LmdbDataset) (key : String) (image : Img) (j : Json) (imageFormat : String) :
    LmdbDataset × Except PyError Unit :=
  noLock_storeVia
    (fun d => LmdbSingleFileDataset.storeImageJsonPair imencode d key image j ".jpg") ds key

/-- The common body of the seven `__noLock_read*` methods: check the collection is
open, then `_, d = self.__noLock_getDatasetContaining(key)` — which, for an absent
key, unpacks the *bare* `None` and raises `TypeError` (the subsequent
`if d is None: ...` guard is unreachable) — then delegate to the owning shard. -/
def noLock_readVia {α : Type} (read : LmdbSingleFileDataset → Except PyError α)
    (ds : LmdbDataset) (key : String) : Except PyError α :=
  match ds.lmdbDatasets with
  | none => .error .notOpen
  | some _ =>
    match noLock_getDatasetContaining ds key with
    | .error e => .error e
    | .ok none => .error .typeError
    | .ok (some (_, env)) => read ⟨ds.mapSize, ds.readOnly, some env⟩

/-- `readData` / `__noLock_readData`. -/
def noLock_readData (ds : LmdbDataset) (key : String) : Except PyError (Option Bytes) :=
  noLock_readVia (fun d => d.readData key) ds key

/-- `readString` / `__noLock_readString`. -/
def noLock_readString (ds : LmdbDataset) (key : String) : Except PyError (Option String) :=
  noLock_readVia (fun d => d.readString key) ds key

/-- `readJson` / `__noLock_readJson`. -/
def noLock_readJson (ds : LmdbDataset) (key : String) : Except PyError (Option Json) :=
  noLock_readVia (fun d => d.readJson key) ds key

/-- `readImage` / `__noLock_readImage`. -/
def noLock_readImage {Img : Type} (imdecode : Bytes → Img) (ds : LmdbDataset)
    (key : String) : Except PyError (Option Img) :=
  noLock_readVia (fun d => LmdbSingleFileDataset.readImage imdecode d key) ds key

/-- `readDataJsonPair` / `__noLock_readDataJsonPair` (`Option` models the
`(None, None)` tuple). -/
def noLock_readDataJsonPair (ds : LmdbDataset) (key : String) :
    Except PyError (Option (Bytes × Json)) :=
  noLock_readVia (fun d => d.readDataJsonPair key) ds key

/-- `readStringJsonPair` / `__noLock_readStringJsonPair`. -/
def noLock_readStringJsonPair (ds : LmdbDataset) (key : String) :
    Except PyError (Option (String × Json)) :=
  noLock_readVia (fun d => d.readStringJsonPair key) ds key

/-- `readImageJsonPair` / `__noLock_readImageJsonPair`. -/
def noLock_readImageJsonPair {Img : Type} (imdecode : Bytes → Img) (ds : LmdbDataset)
    (key : String) : Except PyError (Option (Img × Json)) :=
  noLock_readVia (fun d => LmdbSingleFileDataset.readImageJsonPair imdecode d key) ds key

/-- `delete` / `__noLock_delete`: open check; then the same `TypeError`-raising
unpack on an absent key; else delegate to the owning shard's `delete`, remove the
key from the Key Index when found, and return the outcome. -/
def noLock_delete (ds : LmdbDataset) (key : String) : LmdbDataset × Except PyError Bool :=
  match ds.lmdbDatasets with
  | none => (ds, .error .notOpen)
  | some _ =>
    match noLock_getDatasetContaining ds key with
    | .error e => (ds, .error e)
    | .ok none => (ds, .error .typeError)
    | .ok (some (i, env)) =>
      match LmdbSingleFileDataset.delete ⟨ds.mapSize, ds.readOnly, some env⟩ key with
      | (_, .error e) => (ds, .error e)
      | (d', .ok found) =>
        let ds1 := setShard ds i (d'.lmdbEnv.getD env)
        if found then ({ ds1 with keys := adel ds1.keys key }, .ok true)
        else (ds1, .ok false)

/-- `keys` with its default `recalculate=False`: `list(self.__keys.keys())`
(insertion order). -/
def keysList (ds : LmdbDataset) : List String := ds.keys.map (·.1)

end LmdbDataset

/-! ### `iterateKeys` (`src/lmdb/lmdbDataset.py`, lines 521-526)

In the generator body, the name `random` resolves to the *parameter* `random`
(default `True`), which shadows the module-level `import random`; `random.shuffle`
is then an attribute lookup on that value. -/

/-- The value bound to the name `random` inside `iterateKeys`: either the boolean
parameter (the shadowing local) or the `random` module (what the body's author
intended). -/
inductive PyShuffleVal where
  /-- A `bool` argument (the parameter's default is `True`). -/
  | pybool (b : Bool)
  /-- The imported `random` module. -/
  | pymodule

/-- Python truthiness of the value (`if random:`). -/
def pyTruthy : PyShuffleVal → Bool
  | .pybool b => b
  | .pymodule => true

/-- Attribute lookup `«value».shuffle`: a `bool` has no attribute `shuffle`
(`AttributeError`); the `random` module has one (its in-place permutation is
modelled as a list transformation — which permutation is drawn is irrelevant to the
claims, so the identity permutation stands in). -/
def shuffleAttr : PyShuffleVal → Except PyError (List String → List String)
  | .pybool _ => .error .attributeError
  | .pymodule => .ok (fun ks => ks)

/-- The first iteration of the `iterateKeys` generator body, up to its first yield:
`keys = self.keys()`; then `if random: random.shuffle(keys)`; then the first
`yield k` (or `none` when there are no keys in this pass). `randomArg` is the value
the name `random` denotes in the body — the parameter, since it shadows the module. -/
def LmdbDataset.iterateKeysFirst (ds : LmdbDataset) (randomArg : PyShuffleVal) :
    Except PyError (Option String) :=
  let keys := ds.keysList
  if pyTruthy randomArg then
    match shuffleAttr randomArg with
    | .error e => .error e
    | .ok sh => .ok (sh keys).head?
  else .ok keys.head?

/-! ### Shard discovery (`src/lmdb/lmdbDataset.py`, lines 433-460) -/

/-- `"lmdb_dataset_{:012d}".format(i)`: the literal stem followed by the decimal id,
zero-padded to 12 digits. -/
def composeLmdbDatasetName (i : Nat) : String :=
  ⟨"lmdb_dataset_".data ++ List.replicate (12 - (natChars i).length) '0' ++ natChars i⟩

/-- `p` is an initial segment of `cs` (the character-level content of Python
`str.startswith`). -/
def listBeginsWith : List Char → List Char → Bool
  | [], _ => true
  | _ :: _, [] => false
  | p :: ps, c :: cs => p = c && listBeginsWith ps cs

/-- `__IsValidLmdbDatasetName`: *only* checks the stem and the total length 25 —
it does not check that the last 12 characters are digits. -/
def isValidLmdbDatasetName (n : String) : Bool :=
  listBeginsWith "lmdb_dataset_".data n.data && n.data.length = 25

/-- A nonempty digit run, underscores allowed only between digits. -/
def pyIntDigits : List Char → Option Nat :=
  go none
where
  /-- `acc` is the value so far (`none` before the first digit); an underscore is
  legal only right after a digit and must be followed by a digit. -/
  go : Option Nat → List Char → Option Nat
    | acc, [] => acc
    | acc, c :: t =>
      if isDigitCh c then go (some ((acc.getD 0) * 10 + (c.toNat - 48))) t
      else if c = '_' then
        match acc, t with
        | some a, d :: t2 => if isDigitCh d then go (some (a * 10 + (d.toNat - 48))) t2 else none
        | _, _ => none
      else none

/-- Model of Python `int(s)` on a `str`: strip ASCII whitespace, an optional sign,
then a nonempty digit run with single underscores allowed between digits.
(Non-ASCII digits are outside the modelled input space.) -/
def pyInt (s : String) : Option Int :=
  let cs := (s.data.dropWhile jWs).reverse.dropWhile jWs |>.reverse
  let p : Bool × List Char :=
    match cs with
    | c :: t => if c = '-' then (true, t) else if c = '+' then (false, t) else (false, cs)
    | [] => (false, cs)
  match pyIntDigits p.2 with
  | none => none
  | some v => some (if p.1 then -(v : Int) else (v : Int))

/-- `__ParseLmdbDatasetName`: raise on an invalid name, else `int(n[13:])` —
which raises `ValueError` when the 12-character suffix does not parse as an int.
(Python slicing is by characters: `n[13:]` is `n.data.drop 13`.) -/
def parseLmdbDatasetName (n : String) : Except PyError Int :=
  if isValidLmdbDatasetName n then
    match pyInt ⟨n.data.drop 13⟩ with
    | some v => .ok v
    | none => .error .valueError
  else .error .badNameError

/-- `__noLock_findLmdbDatasets`: collect `__ParseLmdbDatasetName(f)` over the
directory entries passing `__IsValidLmdbDatasetName`, then sort ascending. -/
def findLmdbDatasets (listing : List String) : Except PyError (List Int) :=
  match go listing with
  | .error e => .error e
  | .ok ids => .ok (ids.insertionSort (· ≤ ·))
where
  go : List String → Except PyError (List Int)
    | [] => .ok []
    | f :: t =>
      if isValidLmdbDatasetName f then
        match parseLmdbDatasetName f with
        | .error e => .error e
        | .ok i =>
          match go t with
          | .error e => .error e
          | .ok ids => .ok (i :: ids)
      else go t

/-! ### Read-only variants (`src/lmdb/lmdbDatasetReadonly.py`)

A dataset root on disk is abstracted as: which names exist as subdirectories
(`hasDir`, the `path.exists() and path.is_dir()` test), and the LMDB environment
contents found at each subdirectory (`shardEnv`). -/

/-- A dataset root directory. -/
structure RootFS where
  hasDir : String → Bool
  shardEnv : String → Env

/-- The body of `find_lmdb_datasets_paths`'s scan over one root:
`for i in range(1000000000000)`, breaking at the first id whose directory is
missing. Structurally recursive on the loop's remaining iteration count. -/
def scanRoot (root : RootFS) : Nat → Nat → List String
  | 0, _ => []
  | fuel + 1, i =>
    let name := composeLmdbDatasetName i
    if root.hasDir name then name :: scanRoot root fuel (i + 1) else []

/-- `LmdbDatasetReadonly.find_lmdb_datasets_paths`: scan ids 0, 1, 2, … up to the
`range(1000000000000)` bound, stopping at the first missing directory; raise when
nothing was found. -/
def find_lmdb_datasets_paths (root : RootFS) : Except PyError (List String) :=
  let lmdb_paths := scanRoot root 1000000000000 0
  if lmdb_paths.isEmpty then .error .pathError else .ok lmdb_paths

/-- `LmdbSingleFileDatasetReadonly.keys`: built at open time from a full cursor
scan, latin-1 decoding each key. -/
def sfdroKeys (env : Env) : List String := env.map (fun e => decodeLatin1 e.1)

/-- `LmdbSingleFileDatasetReadonly.read_data`. -/
def sfdro_read_data (env : Env) (key : String) : Except PyError (Option Bytes) :=
  match encodeLatin1 key with
  | .error e => .error e
  | .ok kb => .ok (aget env kb)

/-- `LmdbSingleFileDatasetReadonly.read_json`. -/
def sfdro_read_json (env : Env) (key : String) : Except PyError (Option Json) :=
  match sfdro_read_data env key with
  | .error e => .error e
  | .ok none => .ok none
  | .ok (some b) =>
    match loads (decodeLatin1 b) with
    | .error e => .error e
    | .ok j => .ok (some j)

/-- An open `LmdbDatasetReadonly`: the opened single-file datasets (in discovery
order) and the key dictionary built by enumerating them (`keys_dict[k] = i`, later
shards overwriting earlier ones). -/
structure LmdbDatasetReadonly where
  lmdbDatasets : List Env
  keysDict : List (String × Nat)

/-- `keys_dict` construction in `LmdbDatasetReadonly.open`. -/
def buildKeysDict (datasets : List Env) : List (String × Nat) :=
  datasets.enum.foldl (fun acc p => (sfdroKeys p.2).foldl (fun a k => aput a k p.1) acc) []

/-- `LmdbDatasetReadonly.open`: find the shard paths (contiguous from id 0), open
each, and build the in-memory key dictionary. -/
def lmdbDatasetReadonly_open (root : RootFS) : Except PyError LmdbDatasetReadonly :=
  match find_lmdb_datasets_paths root with
  | .error e => .error e
  | .ok paths =>
    let datasets := paths.map root.shardEnv
    .ok ⟨datasets, buildKeysDict datasets⟩

/-- The dynamically-typed result of the read-only `read_json` methods: either the
`(None, None)` tuple returned when no dataset contains the key, or the
`d.read_json(...)` result delegated to the owning dataset. -/
inductive ROReadJson where
  | pairNone
  | value (j : Option Json)

/-- `LmdbDatasetReadonly.get_dataset_containing` (list indexing is total here:
every stored index is `< len(self.__lmdb_datasets)` by construction). -/
def LmdbDatasetReadonly.get_dataset_containing (ro : LmdbDatasetReadonly) (key : String) :
    Option Env :=
  match aget ro.keysDict key with
  | none => none
  | some i => some (ro.lmdbDatasets.getD i [])

/-- `LmdbDatasetReadonly.read_json`. -/
def LmdbDatasetReadonly.read_json (ro : LmdbDatasetReadonly) (key : String) :
    Except PyError ROReadJson :=
  match ro.get_dataset_containing key with
  | none => .ok .pairNone
  | some env =>
    match sfdro_read_json env key with
    | .error e => .error e
    | .ok j => .ok (.value j)

/-- An open `LmdbMultipleDatasetsReadonly`: the *flattened* list of opened
single-file datasets over all roots, and the key list of `(i, k)` pairs where `i`
enumerates that flattened list. -/
structure LmdbMultipleDatasetsReadonly where
  lmdbDatasets : List Env
  keys : List (Nat × String)

/-- `LmdbMultipleDatasetsReadonly.find_lmdb_datasets_paths`: per root, the same
contiguous scan from id 0; all roots' paths are concatenated; raise when no root
contributed any path. -/
def multi_find_lmdb_datasets_paths (roots : List RootFS) :
    Except PyError (List (RootFS × String)) :=
  let lmdb_paths := roots.flatMap (fun r => (scanRoot r 1000000000000 0).map (fun n => (r, n)))
  if lmdb_paths.isEmpty then .error .pathError else .ok lmdb_paths

/-- `LmdbMultipleDatasetsReadonly.open`. -/
def lmdbMultipleDatasetsReadonly_open (roots : List RootFS) :
    Except PyError LmdbMultipleDatasetsReadonly :=
  match multi_find_lmdb_datasets_paths roots with
  | .error e => .error e
  | .ok paths =>
    let datasets := paths.map (fun p => p.1.shardEnv p.2)
    .ok ⟨datasets, datasets.enum.flatMap (fun p => (sfdroKeys p.2).map (fun k => (p.1, k)))⟩

/-- `LmdbMultipleDatasetsReadonly.get_dataset_containing(key)`: `i = key[0]`; `None`
if `i` is out of range, else the `i`-th entry of the *flattened* dataset list. -/
def LmdbMultipleDatasetsReadonly.get_dataset_containing
    (m : LmdbMultipleDatasetsReadonly) (key : Nat × String) : Option Env :=
  if m.lmdbDatasets.length ≤ key.1 then none
  else some (m.lmdbDatasets.getD key.1 [])

/-- `LmdbMultipleDatasetsReadonly.read_json`: delegate to the selected dataset with
the original-key component `key[1]`. -/
def LmdbMultipleDatasetsReadonly.read_json (m : LmdbMultipleDatasetsReadonly)
    (key : Nat × String) : Except PyError ROReadJson :=
  match m.get_dataset_containing key with
  | none => .ok .pairNone
  | some env =>
    match sfdro_read_json env key.2 with
    | .error e => .error e
    | .ok j => .ok (.value j)

/-! ### Claims -/

/-- **C1** (evidence for a code bug). The spec says a read of a key absent from the
Key Index returns "not found" without error; on the code, for every open sharded
dataset and every key absent from the Key Index, each of the seven typed reads
raises `TypeError` instead, because `__noLock_getDatasetContaining` returns the bare
`None` which the caller unpacks as a tuple. -/
theorem C1_reads_of_absent_key_raise_TypeError {Img : Type} (imdecode : Bytes → Img)
    (ds : LmdbDataset) (shards : List (Nat × Env)) (key : String)
    (hopen : ds.lmdbDatasets = some shards)
    (habsent : aget ds.keys key = none) :
    LmdbDataset.noLock_readData ds key = .error .typeError ∧
    LmdbDataset.noLock_readString ds key = .error .typeError ∧
    LmdbDataset.noLock_readJson ds key = .error .typeError ∧
    LmdbDataset.noLock_readImage imdecode ds key = .error .typeError ∧
    LmdbDataset.noLock_readDataJsonPair ds key = .error .typeError ∧
    LmdbDataset.noLock_readStringJsonPair ds key = .error .typeError ∧
    LmdbDataset.noLock_readImageJsonPair imdecode ds key = .error .typeError := by
  have hvia : ∀ {α : Type} (read : LmdbSingleFileDataset → Except PyError α),
      LmdbDataset.noLock_readVia read ds key = .error .typeError := by
    intro α read
    unfold LmdbDataset.noLock_readVia LmdbDataset.noLock_getDatasetContaining
    rw [hopen, habsent]
  exact ⟨hvia _, hvia _, hvia _, hvia _, hvia _, hvia _, hvia _⟩

/-- Witness for C1 at a concrete open dataset with an empty Key Index. -/
theorem C1_witness :
    (LmdbDataset.mk 1024 false [] (some []) none).lmdbDatasets = some [] ∧
    aget (LmdbDataset.mk 1024 false [] (some []) none).keys "k" = none ∧
    LmdbDataset.noLock_readData (LmdbDataset.mk 1024 false [] (some []) none) "k" =
      .error .typeError :=
  ⟨rfl, rfl,
    (C1_reads_of_absent_key_raise_TypeError (fun _ => (0 : Nat))
      (LmdbDataset.mk 1024 false [] (some []) none) [] "k" rfl rfl).1⟩

/-- **C2** (evidence for a code bug). The spec (and the method's own docstring) say
`delete` on an absent key returns `False` and leaves the Key Index unchanged; on the
code it raises `TypeError` from the same bare-`None` unpack (the state — in
particular the Key Index — is indeed left unchanged). -/
theorem C2_delete_of_absent_key_raises_TypeError
    (ds : LmdbDataset) (shards : List (Nat × Env)) (key : String)
    (hopen : ds.lmdbDatasets = some shards)
    (habsent : aget ds.keys key = none) :
    LmdbDataset.noLock_delete ds key = (ds, .error .typeError) := by
  unfold LmdbDataset.noLock_delete LmdbDataset.noLock_getDatasetContaining
  rw [hopen, habsent]

/-- Witness for C2 at a concrete open dataset with an empty Key Index. -/
theorem C2_witness :
    (LmdbDataset.mk 1024 false [] (some []) none).lmdbDatasets = some [] ∧
    aget (LmdbDataset.mk 1024 false [] (some []) none).keys "k" = none ∧
    LmdbDataset.noLock_delete (LmdbDataset.mk 1024 false [] (some []) none) "k" =
      (LmdbDataset.mk 1024 false [] (some []) none, .error .typeError) :=
  ⟨rfl, rfl,
    C2_delete_of_absent_key_raises_TypeError
      (LmdbDataset.mk 1024 false [] (some []) none) [] "k" rfl rfl⟩

/-- **C10** (confirmed). For every open sharded dataset, `iterateKeys` with its
default arguments (`random=True`) raises `AttributeError` at the first requested
element instead of yielding any key: inside the body the name `random` denotes the
boolean parameter — shadowing the `random` module — and `bool` has no `shuffle`
attribute. -/
theorem C10_iterateKeys_default_raises
    (ds : LmdbDataset) (shards : List (Nat × Env))
    (hopen : ds.lmdbDatasets = some shards) :
    LmdbDataset.iterateKeysFirst ds (.pybool true) = .error .attributeError := rfl

/-- Witness for C10 at a concrete open dataset with one key. -/
theorem C10_witness :
    (LmdbDataset.mk 1024 false [("k", some 0)] (some [(0, [([107], [1])])]) (some 0)).lmdbDatasets
        = some [(0, [([107], [1])])] ∧
    LmdbDataset.iterateKeysFirst
      (LmdbDataset.mk 1024 false [("k", some 0)] (some [(0, [([107], [1])])]) (some 0))
      (.pybool true) = .error .attributeError :=
  ⟨rfl, C10_iterateKeys_default_raises _ [(0, [([107], [1])])] rfl⟩

theorem storeVia_keyExists
    (store : LmdbSingleFileDataset → LmdbSingleFileDataset × Except PyError Unit)
    (ds : LmdbDataset) (key : String) (h : (aget ds.keys key).isSome = true) :
    LmdbDataset.noLock_storeVia store ds key = (ds, .error .keyExists) := by
  unfold LmdbDataset.noLock_storeVia
  rw [if_pos h]

/-- **C4** (confirmed). For every key already present in the Key Index, every store
variant fails with the "Key already exists" error without modifying the dataset
(shards and Key Index included), so a subsequent read of the key is unchanged. -/
theorem C4_store_on_present_key_fails {Img : Type}
    (imencode : String → Img → Option Bytes)
    (ds : LmdbDataset) (key : String) (data : Bytes) (s : String) (j : Json)
    (image : Img) (imageFormat : String)
    (hpresent : (aget ds.keys key).isSome = true) :
    LmdbDataset.noLock_storeData ds key data = (ds, .error .keyExists) ∧
    LmdbDataset.noLock_storeString ds key s = (ds, .error .keyExists) ∧
    LmdbDataset.noLock_storeJson ds key j = (ds, .error .keyExists) ∧
    LmdbDataset.noLock_storeImage imencode ds key image imageFormat =
      (ds, .error .keyExists) ∧
    LmdbDataset.noLock_storeDataJsonPair ds key data j = (ds, .error .keyExists) ∧
    LmdbDataset.noLock_storeStringJsonPair ds key s j = (ds, .error .keyExists) ∧
    LmdbDataset.noLock_storeImageJsonPair imencode ds key image j imageFormat =
      (ds, .error .keyExists) ∧
    LmdbDataset.noLock_readData (LmdbDataset.noLock_storeData ds key data).1 key =
      LmdbDataset.noLock_readData ds key := by
  have h1 := storeVia_keyExists (fun d => d.storeData key data) ds key hpresent
  refine ⟨h1, storeVia_keyExists _ ds key hpresent, storeVia_keyExists _ ds key hpresent,
    storeVia_keyExists _ ds key hpresent, storeVia_keyExists _ ds key hpresent,
    storeVia_keyExists _ ds key hpresent, storeVia_keyExists _ ds key hpresent, ?_⟩
  show LmdbDataset.noLock_readData (LmdbDataset.noLock_storeVia _ ds key).1 key = _
  rw [h1]

/-- Witness for C4: the second store of an existing key fails and the first value is
still read back. -/
theorem C4_witness :
    (aget (LmdbDataset.mk 1024 false [("k", some 0)] (some [(0, [([107], [5])])])
      (some 0)).keys "k").isSome = true ∧
    LmdbDataset.noLock_storeData
      (LmdbDataset.mk 1024 false [("k", some 0)] (some [(0, [([107], [5])])]) (some 0))
      "k" [9] =
      (LmdbDataset.mk 1024 false [("k", some 0)] (some [(0, [([107], [5])])]) (some 0),
        .error .keyExists) ∧
    LmdbDataset.noLock_readData
      (LmdbDataset.noLock_storeData
        (LmdbDataset.mk 1024 false [("k", some 0)] (some [(0, [([107], [5])])]) (some 0))
        "k" [9]).1 "k" = .ok (some [5]) := by
  refine ⟨rfl, (C4_store_on_present_key_fails (fun _ _ => (none : Option Bytes))
    (LmdbDataset.mk 1024 false [("k", some 0)] (some [(0, [([107], [5])])]) (some 0))
    "k" [9] "" .null () "" rfl).1, ?_⟩
  rw [(C4_store_on_present_key_fails (fun _ _ => (none : Option Bytes))
    (LmdbDataset.mk 1024 false [("k", some 0)] (some [(0, [([107], [5])])]) (some 0))
    "k" [9] "" .null () "" rfl).1]
  rfl

/-- The success path of the common store body: fresh key, valid cached head, and a
successful write on the head shard yield the updated shard plus
`keys[key] = lastLmdbDatasetIndex`. -/
theorem storeVia_success
    (store : LmdbSingleFileDataset → LmdbSingleFileDataset × Except PyError Unit)
    (ds : LmdbDataset) (shards : List (Nat × Env)) (key : String) (h : Nat)
    (env : Env) (d' : LmdbSingleFileDataset)
    (hopen : ds.lmdbDatasets = some shards)
    (hfresh : aget ds.keys key = none)
    (hhead : ds.lastLmdbDatasetIndex = some h)
    (henv : aget shards h = some env)
    (hstore : store ⟨ds.mapSize, ds.readOnly, some env⟩ = (d', .ok ())) :
    LmdbDataset.noLock_storeVia store ds key =
      ({ ds with
          lmdbDatasets := some (aput shards h (d'.lmdbEnv.getD env)),
          keys := aput ds.keys key (some h) }, .ok ()) := by
  unfold LmdbDataset.noLock_storeVia LmdbDataset.noLock_getHeadDataset LmdbDataset.setShard
  simp only [hfresh, hopen, hhead, henv, hstore, Option.isSome_none, Bool.false_eq_true,
    if_false, Option.bind_some, Option.some_bind, Option.map_some]
  rfl

/-- **C9** (confirmed). The sharded `storeImage` / `storeImageJsonPair` never
forward their `imageFormat` argument to the underlying shard write, so the whole
call — normal path and overflow-retry path alike — is the same function for every
format (first two conjuncts, which hold definitionally because the argument is
dropped at the call sites); on a successful store the bytes actually written, and
read back, are `imencode ".jpg" image`, not `imencode imageFormat image`. -/
theorem C9_storeImage_format_not_forwarded {Img : Type}
    (imencode : String → Img → Option Bytes)
    (ds : LmdbDataset) (shards : List (Nat × Env)) (key : String) (image : Img)
    (j : Json) (imageFormat : String) (h : Nat) (env : Env) (kb bs : Bytes)
    (hro : ds.readOnly = false)
    (hopen : ds.lmdbDatasets = some shards)
    (hfresh : aget ds.keys key = none)
    (hhead : ds.lastLmdbDatasetIndex = some h)
    (henv : aget shards h = some env)
    (himg : imencode ".jpg" image = some bs)
    (hkb : encodeLatin1 key = .ok kb)
    (hfits : envSize (aput env kb bs) ≤ ds.mapSize) :
    LmdbDataset.noLock_storeImage imencode ds key image imageFormat =
      LmdbDataset.noLock_storeImage imencode ds key image ".jpg" ∧
    LmdbDataset.noLock_storeImageJsonPair imencode ds key image j imageFormat =
      LmdbDataset.noLock_storeImageJsonPair imencode ds key image j ".jpg" ∧
    LmdbDataset.noLock_readData
      (LmdbDataset.noLock_storeImage imencode ds key image imageFormat).1 key =
      .ok (some bs) := by
  refine ⟨rfl, rfl, ?_⟩
  have hstore : LmdbSingleFileDataset.storeImage imencode
      ⟨ds.mapSize, ds.readOnly, some env⟩ key image ".jpg" =
      (⟨ds.mapSize, ds.readOnly, some (aput env kb bs)⟩, .ok ()) := by
    unfold LmdbSingleFileDataset.storeImage LmdbSingleFileDataset.storeData envPut
    rw [himg, hro]
    simp only [Bool.false_eq_true, if_false, hkb]
    rw [if_neg (by omega)]
  have hsv := storeVia_success
    (fun d => LmdbSingleFileDataset.storeImage imencode d key image ".jpg")
    ds shards key h env ⟨ds.mapSize, ds.readOnly, some (aput env kb bs)⟩
    hopen hfresh hhead henv hstore
  show LmdbDataset.noLock_readData
      (LmdbDataset.noLock_storeVia _ ds key).1 key = .ok (some bs)
  rw [hsv]
  unfold LmdbDataset.noLock_readData LmdbDataset.noLock_readVia
    LmdbDataset.noLock_getDatasetContaining LmdbSingleFileDataset.readData
  simp only [aget_aput, Option.some_bind, Option.getD_some, hkb]

/-- Witness for C9: a format-sensitive codec stores the `".jpg"` bytes even though
`".png"` was requested. -/
theorem C9_witness :
    LmdbDataset.noLock_readData
      (LmdbDataset.noLock_storeImage
        (fun fmt _ => some (if fmt = ".jpg" then [1] else [2]))
        (LmdbDataset.mk 1024 false [] (some [(0, [])]) (some 0)) "k" (0 : Nat) ".png").1
      "k" = .ok (some [1]) :=
  (C9_storeImage_format_not_forwarded
    (fun fmt _ => some (if fmt = ".jpg" then [1] else [2]))
    (LmdbDataset.mk 1024 false [] (some [(0, [])]) (some 0)) [(0, [])] "k" 0 .null
    ".png" 0 [] [107] [1] rfl rfl rfl rfl rfl (by simp) rfl (by decide)).2.2

/-- **C3** (confirmed). Storing a fresh key when the head shard's `put` signals
`MapFullError`: the handler opens a new shard with id `max existing id + 1`, makes
it the head, retries the identical write exactly once on it, and on success records
`KeyIndex[key] = that new id` (the id of the shard that ultimately stored the
record, which now holds the written environment); if the retried write also fails,
the error propagates and the Key Index is left without the key (only the fresh
empty shard and the moved head remain). -/
theorem C3_overflow_opens_next_and_retries
    (ds : LmdbDataset) (shards : List (Nat × Env)) (key : String) (data kb : Bytes)
    (envH : Env)
    (hro : ds.readOnly = false)
    (hopen : ds.lmdbDatasets = some shards)
    (hfresh : aget ds.keys key = none)
    (hhead : ds.lastLmdbDatasetIndex = some (LmdbDataset.maxIds shards))
    (henvH : aget shards (LmdbDataset.maxIds shards) = some envH)
    (hkb : encodeLatin1 key = .ok kb)
    (hfull : envPut ds.mapSize envH kb data = .error .mapFull) :
    (∀ env', envPut ds.mapSize [] kb data = .ok env' →
      LmdbDataset.noLock_storeData ds key data =
        ({ ds with
            lmdbDatasets := some (aput (aput shards (LmdbDataset.maxIds shards + 1) [])
              (LmdbDataset.maxIds shards + 1) env'),
            lastLmdbDatasetIndex := some (LmdbDataset.maxIds shards + 1),
            keys := aput ds.keys key (some (LmdbDataset.maxIds shards + 1)) }, .ok ())) ∧
    (∀ e, envPut ds.mapSize [] kb data = .error e →
      LmdbDataset.noLock_storeData ds key data =
        ({ ds with
            lmdbDatasets := some (aput shards (LmdbDataset.maxIds shards + 1) []),
            lastLmdbDatasetIndex := some (LmdbDataset.maxIds shards + 1) }, .error e)) := by
  have hne : shards.isEmpty = false := by
    cases shards with
    | nil => simp [aget] at henvH
    | cons a t => rfl
  have hstoreH : LmdbSingleFileDataset.storeData ⟨ds.mapSize, ds.readOnly, some envH⟩
      key data = (⟨ds.mapSize, ds.readOnly, some envH⟩, .error .mapFull) := by
    unfold LmdbSingleFileDataset.storeData
    rw [hro]
    simp only [Bool.false_eq_true, if_false, hkb, hfull]
  constructor
  · intro env' hput
    have hstoreR : LmdbSingleFileDataset.storeData ⟨ds.mapSize, ds.readOnly, some []⟩
        key data = (⟨ds.mapSize, ds.readOnly, some env'⟩, .ok ()) := by
      unfold LmdbSingleFileDataset.storeData
      rw [hro]
      simp only [Bool.false_eq_true, if_false, hkb, hput]
    unfold LmdbDataset.noLock_storeData LmdbDataset.noLock_storeVia
      LmdbDataset.noLock_getHeadDataset LmdbDataset.noLock_openNext
      LmdbDataset.noLock_nextLmdbDatsetIndex LmdbDataset.noLock_lastLmdbDataset
      LmdbDataset.setShard
    simp only [hfresh, hopen, hhead, henvH, hne, hstoreH, hstoreR, aget_aput,
      Option.isSome_none, Bool.false_eq_true, if_false, Option.some_bind,
      Option.bind_some, Option.map_some, Option.getD_some]
    rfl
  · intro e hput
    have hstoreR : LmdbSingleFileDataset.storeData ⟨ds.mapSize, ds.readOnly, some []⟩
        key data = (⟨ds.mapSize, ds.readOnly, some []⟩, .error e) := by
      unfold LmdbSingleFileDataset.storeData
      rw [hro]
      simp only [Bool.false_eq_true, if_false, hkb, hput]
    unfold LmdbDataset.noLock_storeData LmdbDataset.noLock_storeVia
      LmdbDataset.noLock_getHeadDataset LmdbDataset.noLock_openNext
      LmdbDataset.noLock_nextLmdbDatsetIndex LmdbDataset.noLock_lastLmdbDataset
      LmdbDataset.setShard
    simp only [hfresh, hopen, hhead, henvH, hne, hstoreH, hstoreR, aget_aput,
      Option.isSome_none, Bool.false_eq_true, if_false, Option.some_bind,
      Option.bind_some, Option.map_some, Option.getD_some]

/-- Witness for C3: per-shard capacity 4, head shard 0 already holding 3 bytes, so
storing 2 more overflows; the store lands in fresh shard 1 and `keys["k"] = 1`. -/
theorem C3_witness :
    envPut 4 [([97], [98, 99])] [107] [1] = .error .mapFull ∧
    LmdbDataset.noLock_storeData
      (LmdbDataset.mk 4 false [] (some [(0, [([97], [98, 99])])]) (some 0)) "k" [1] =
      (LmdbDataset.mk 4 false [("k", some 1)]
        (some [(0, [([97], [98, 99])]), (1, [([107], [1])])]) (some 1), .ok ()) := by
  refine ⟨rfl, ?_⟩
  rw [(C3_overflow_opens_next_and_retries
    (LmdbDataset.mk 4 false [] (some [(0, [([97], [98, 99])])]) (some 0))
    [(0, [([97], [98, 99])])] "k" [1] [107] [([97], [98, 99])]
    rfl rfl rfl rfl rfl rfl rfl).1 [([107], [1])] rfl]
  rfl

/-- On a writable open single-file dataset with enough capacity, `storeData` puts
the encoded pair and `readData` immediately reads the payload back. -/
theorem storeData_readData (d : LmdbSingleFileDataset) (env : Env) (key : String)
    (kb v : Bytes)
    (hro : d.readOnly = false) (henv : d.lmdbEnv = some env)
    (hkb : encodeLatin1 key = .ok kb)
    (hfit : envSize (aput env kb v) ≤ d.mapSize) :
    d.storeData key v = ({ d with lmdbEnv := some (aput env kb v) }, .ok ()) ∧
    LmdbSingleFileDataset.readData (d.storeData key v).1 key = .ok (some v) := by
  have h1 : d.storeData key v = ({ d with lmdbEnv := some (aput env kb v) }, .ok ()) := by
    unfold LmdbSingleFileDataset.storeData envPut
    rw [hro]
    simp only [Bool.false_eq_true, if_false, henv, hkb]
    rw [if_neg (by omega)]
  refine ⟨h1, ?_⟩
  rw [h1]
  unfold LmdbSingleFileDataset.readData
  simp only [hkb, aget_aput]

/-- **C5** (confirmed). On a writable open single-file dataset with enough
capacity, every store variant round-trips: reading `key` immediately after storing
a payload returns the payload — raw bytes, latin-1-encodable text, structured
(JSON) value, image (for a codec pair with `imdecode (imencode fmt img) = img`),
and the blob+value pair, for which `readDataJsonPair` returns exactly
`(data, j)`. -/
theorem C5_store_then_read_roundtrip {Img : Type}
    (imencode : String → Img → Option Bytes) (imdecode : Bytes → Img)
    (d : LmdbSingleFileDataset) (env : Env) (key s : String) (j : Json)
    (image : Img) (fmt : String) (data kb sb jb pb bs : Bytes)
    (hro : d.readOnly = false) (henv : d.lmdbEnv = some env)
    (hkb : encodeLatin1 key = .ok kb)
    (hsb : encodeLatin1 s = .ok sb)
    (hdata : ∀ b ∈ data, b < 256)
    (himg : imencode fmt image = some bs)
    (hdec : imdecode bs = image)
    (hjb : encodeLatin1 (dumps j) = .ok jb)
    (hpb : encodeLatin1 (dumps (Json.obj [("d", Json.str ⟨encodebytes data⟩), ("j", j)]))
      = .ok pb)
    (hfit1 : envSize (aput env kb data) ≤ d.mapSize)
    (hfit2 : envSize (aput env kb sb) ≤ d.mapSize)
    (hfit3 : envSize (aput env kb jb) ≤ d.mapSize)
    (hfit4 : envSize (aput env kb bs) ≤ d.mapSize)
    (hfit5 : envSize (aput env kb pb) ≤ d.mapSize) :
    LmdbSingleFileDataset.readData (d.storeData key data).1 key = .ok (some data) ∧
    LmdbSingleFileDataset.readString (d.storeString key s).1 key = .ok (some s) ∧
    LmdbSingleFileDataset.readJson (d.storeJson key j).1 key = .ok (some j) ∧
    LmdbSingleFileDataset.readImage imdecode
      (LmdbSingleFileDataset.storeImage imencode d key image fmt).1 key
      = .ok (some image) ∧
    LmdbSingleFileDataset.readDataJsonPair (d.storeDataJsonPair key data j).1 key
      = .ok (some (data, j)) := by
  refine ⟨(storeData_readData d env key kb data hro henv hkb hfit1).2, ?_, ?_, ?_, ?_⟩
  · have hss : d.storeString key s = d.storeData key sb := by
      unfold LmdbSingleFileDataset.storeString
      rw [hsb]
    rw [hss]
    unfold LmdbSingleFileDataset.readString
    rw [(storeData_readData d env key kb sb hro henv hkb hfit2).2]
    simp only [decodeLatin1_encodeLatin1 s sb hsb]
  · have hsj : d.storeJson key j = d.storeData key jb := by
      unfold LmdbSingleFileDataset.storeJson LmdbSingleFileDataset.storeString
      rw [hjb]
    rw [hsj]
    unfold LmdbSingleFileDataset.readJson LmdbSingleFileDataset.readString
    rw [(storeData_readData d env key kb jb hro henv hkb hfit3).2]
    simp only [decodeLatin1_encodeLatin1 _ jb hjb, loads_dumps]
  · have hsi : LmdbSingleFileDataset.storeImage imencode d key image fmt
        = d.storeData key bs := by
      unfold LmdbSingleFileDataset.storeImage
      rw [himg]
    rw [hsi]
    unfold LmdbSingleFileDataset.readImage
    rw [(storeData_readData d env key kb bs hro henv hkb hfit4).2]
    simp only [hdec]
  · have hsp : d.storeDataJsonPair key data j = d.storeData key pb := by
      unfold LmdbSingleFileDataset.storeDataJsonPair LmdbSingleFileDataset.storeJson
        LmdbSingleFileDataset.storeString
      rw [hpb]
    rw [hsp]
    unfold LmdbSingleFileDataset.readDataJsonPair LmdbSingleFileDataset.readJson
      LmdbSingleFileDataset.readString
    rw [(storeData_readData d env key kb pb hro henv hkb hfit5).2]
    simp only [decodeLatin1_encodeLatin1 _ pb hpb, loads_dumps, aget, if_true]
    rw [decodebytes_encodebytes data hdata]
    simp

/-- Witness for C5: a concrete blob+value pair round trip (blob `[200]`, value `1`)
through the stored JSON envelope. -/
theorem C5_witness :
    LmdbSingleFileDataset.readDataJsonPair
      ((LmdbSingleFileDataset.mk 1024 false (some [])).storeDataJsonPair "k" [200]
        (Json.int 1)).1 "k" = .ok (some ([200], Json.int 1)) :=
  (C5_store_then_read_roundtrip (fun _ n => some [n]) (fun b => b.headD 0)
    (LmdbSingleFileDataset.mk 1024 false (some [])) [] "k" "a" (Json.int 1) 7 ".jpg"
    [200] [107] [97] [49]
    [123, 34, 100, 34, 58, 32, 34, 121, 65, 61, 61, 92, 110, 34, 44, 32, 34, 106,
      34, 58, 32, 49, 125] [7]
    rfl rfl rfl rfl (by decide) rfl rfl rfl rfl (by decide) (by decide) (by decide)
    (by decide) (by decide)).2.2.2.2

/-- The shard-name pattern *as the spec words it*: the literal stem followed by 12
decimal digits, total length 25. (Stated from the spec for comparison with the
source's `isValidLmdbDatasetName`, which omits the digit check.) -/
def specShardNamePattern (n : String) : Bool :=
  listBeginsWith "lmdb_dataset_".data n.data && n.data.length = 25
    && (n.data.drop 13).all isDigitCh

/-- **C6 counterexample.** `"lmdb_dataset_aaaaaaaaaaaa"` does not match the spec's
pattern, so the spec says discovery ignores it and returns the empty id list; the
code's name filter accepts it (stem and length only) and `int("aaaaaaaaaaaa")`
then raises `ValueError`. -/
theorem C6_counterexample :
    specShardNamePattern "lmdb_dataset_aaaaaaaaaaaa" = false ∧
    findLmdbDatasets ["lmdb_dataset_aaaaaaaaaaaa"] = .error .valueError ∧
    findLmdbDatasets ["lmdb_dataset_aaaaaaaaaaaa"] ≠ .ok [] :=
  ⟨by decide, rfl, fun h => Except.noConfusion h⟩

/-- **C6** (corrected). Discovery filters on the stem and the total length *only*
(not on the suffix being digits), and `int(...)` is applied to the raw 12-character
suffix — so the claim holds only on listings in which every name passing that
weaker filter has an `int`-parsable suffix. On such listings the result is the
parsed ids sorted ascending (a sorted permutation of the parses, in particular):
names failing the stem/length filter are ignored without failing. -/
theorem C6_discovery_requires_parsable_suffixes (listing : List String)
    (hparse : ∀ f ∈ listing, isValidLmdbDatasetName f = true →
      ∃ v, pyInt ⟨f.data.drop 13⟩ = some v) :
    findLmdbDatasets listing =
      .ok ((listing.filterMap (fun f =>
        if isValidLmdbDatasetName f then pyInt ⟨f.data.drop 13⟩ else none)).insertionSort
          (· ≤ ·)) ∧
    ((listing.filterMap (fun f =>
        if isValidLmdbDatasetName f then pyInt ⟨f.data.drop 13⟩ else none)).insertionSort
          (· ≤ ·)).Sorted (· ≤ ·) ∧
    List.Perm
      ((listing.filterMap (fun f =>
        if isValidLmdbDatasetName f then pyInt ⟨f.data.drop 13⟩ else none)).insertionSort
          (· ≤ ·))
      (listing.filterMap (fun f =>
        if isValidLmdbDatasetName f then pyInt ⟨f.data.drop 13⟩ else none)) := by
  have hgo : ∀ l : List String, (∀ f ∈ l, isValidLmdbDatasetName f = true →
      ∃ v, pyInt ⟨f.data.drop 13⟩ = some v) →
      findLmdbDatasets.go l = .ok (l.filterMap (fun f =>
        if isValidLmdbDatasetName f then pyInt ⟨f.data.drop 13⟩ else none)) := by
    intro l
    induction l with
    | nil => intro _; rfl
    | cons f t ih =>
      intro hp
      by_cases hv : isValidLmdbDatasetName f = true
      · obtain ⟨v, hvp⟩ := hp f (List.mem_cons_self f t) hv
        have hparsef : parseLmdbDatasetName f = .ok v := by
          unfold parseLmdbDatasetName
          rw [if_pos hv, hvp]
        unfold findLmdbDatasets.go
        rw [if_pos hv, hparsef, ih (fun g hg => hp g (List.mem_cons_of_mem f hg))]
        simp [List.filterMap_cons, hv, hvp]
      · unfold findLmdbDatasets.go
        rw [if_neg hv, ih (fun g hg => hp g (List.mem_cons_of_mem f hg))]
        simp [List.filterMap_cons, hv]
  refine ⟨?_, List.sorted_insertionSort _ _, List.perm_insertionSort _ _⟩
  unfold findLmdbDatasets
  rw [hgo listing hparse]

/-- Witness for C6: a non-matching name is skipped and the two shard names come
back parsed and sorted. -/
theorem C6_witness :
    findLmdbDatasets
      ["x", "lmdb_dataset_000000000002", "lmdb_dataset_000000000001"] = .ok [1, 2] :=
  (C6_discovery_requires_parsable_suffixes
    ["x", "lmdb_dataset_000000000002", "lmdb_dataset_000000000001"]
    (by
      intro f hf hv
      simp only [List.mem_cons, List.not_mem_nil, or_false] at hf
      rcases hf with rfl | rfl | rfl
      · exact absurd hv (by decide)
      · exact ⟨2, by decide⟩
      · exact ⟨1, by decide⟩)).1

/-- One shard's contribution to `keys_dict`: every key of the shard is mapped to the
shard's index, overwriting earlier entries. -/
theorem aget_putAll (ks : List String) (acc : List (String × Nat)) (i : Nat)
    (k : String) :
    aget (ks.foldl (fun a kk => aput a kk i) acc) k =
      if k ∈ ks then some i else aget acc k := by
  induction ks generalizing acc with
  | nil => simp
  | cons k0 t ih =>
    simp only [List.foldl_cons, ih]
    by_cases hm : k ∈ t
    · simp [hm, List.mem_cons]
    · by_cases hk : k0 = k
      · subst hk
        simp [hm, aget_aput, List.mem_cons]
      · simp only [hm, if_false, aget_aput_ne _ _ _ _ hk]
        rw [if_neg]
        simp only [List.mem_cons]
        exact fun h => h.elim (fun h1 => hk h1.symm) hm

/-- The index of the *last* dataset (counting from `j`) whose key set holds `k`. -/
def lastOwnerFrom (k : String) : Nat → List Env → Option Nat
  | _, [] => none
  | j, env :: t =>
    match lastOwnerFrom k (j + 1) t with
    | some i => some i
    | none => if k ∈ sfdroKeys env then some j else none

theorem lastOwnerFrom_none (k : String) :
    ∀ (ds : List Env) (j : Nat), lastOwnerFrom k j ds = none →
      ∀ env ∈ ds, k ∉ sfdroKeys env := by
  intro ds
  induction ds with
  | nil => intro j _ env henv; simp at henv
  | cons e t ih =>
    intro j h env henv
    unfold lastOwnerFrom at h
    rcases List.mem_cons.mp henv with rfl | hmem
    · cases hlo : lastOwnerFrom k (j + 1) t with
      | some i => rw [hlo] at h; exact absurd h (by simp)
      | none =>
        rw [hlo] at h
        intro hk
        rw [if_pos hk] at h
        exact absurd h (by simp)
    · cases hlo : lastOwnerFrom k (j + 1) t with
      | some i => rw [hlo] at h; exact absurd h (by simp)
      | none => exact ih (j + 1) hlo env hmem

theorem lastOwnerFrom_some (k : String) :
    ∀ (ds : List Env) (j i : Nat), lastOwnerFrom k j ds = some i →
      j ≤ i ∧ i - j < ds.length ∧ k ∈ sfdroKeys (ds.getD (i - j) []) := by
  intro ds
  induction ds with
  | nil => intro j i h; exact absurd h (by simp [lastOwnerFrom])
  | cons e t ih =>
    intro j i h
    unfold lastOwnerFrom at h
    cases hlo : lastOwnerFrom k (j + 1) t with
    | some i' =>
      rw [hlo] at h
      cases h
      obtain ⟨h1, h2, h3⟩ := ih (j + 1) i hlo
      refine ⟨by omega, by simp; omega, ?_⟩
      have : i - j = (i - (j + 1)) + 1 := by omega
      rw [this]
      simpa using h3
    | none =>
      rw [hlo] at h
      by_cases hk : k ∈ sfdroKeys e
      · rw [if_pos hk] at h
        cases h
        simp [hk]
      · rw [if_neg hk] at h
        exact absurd h (by simp)

theorem lastOwnerFrom_isSome (k : String) :
    ∀ (ds : List Env) (j : Nat),
      (lastOwnerFrom k j ds).isSome = true ↔ ∃ env ∈ ds, k ∈ sfdroKeys env := by
  intro ds
  induction ds with
  | nil => intro j; simp [lastOwnerFrom]
  | cons e t ih =>
    intro j
    unfold lastOwnerFrom
    cases hlo : lastOwnerFrom k (j + 1) t with
    | some i =>
      simp only [Option.isSome_some, true_iff]
      have : ∃ env ∈ t, k ∈ sfdroKeys env := (ih (j + 1)).mp (by rw [hlo]; rfl)
      obtain ⟨env, h1, h2⟩ := this
      exact ⟨env, List.mem_cons_of_mem e h1, h2⟩
    | none =>
      have hnone : ¬ ∃ env ∈ t, k ∈ sfdroKeys env := by
        rw [← ih (j + 1)]
        simp [hlo]
      by_cases hk : k ∈ sfdroKeys e
      · simp only [if_pos hk, Option.isSome_some, true_iff]
        exact ⟨e, List.mem_cons_self e t, hk⟩
      · simp only [if_neg hk, Option.isSome_none, Bool.false_eq_true, false_iff]
        intro ⟨env, h1, h2⟩
        rcases List.mem_cons.mp h1 with rfl | hmem
        · exact hk h2
        · exact hnone ⟨env, hmem, h2⟩

/-- The `keys_dict` fold, characterised: starting from `acc` at index `j`, a lookup
returns the last owner when one exists, else falls through to `acc`. -/
theorem aget_keysDictFold (k : String) :
    ∀ (ds : List Env) (j : Nat) (acc : List (String × Nat)),
      aget ((List.enumFrom j ds).foldl
        (fun acc p => (sfdroKeys p.2).foldl (fun a kk => aput a kk p.1) acc) acc) k =
      match lastOwnerFrom k j ds with
      | some i => some i
      | none => aget acc k := by
  intro ds
  induction ds with
  | nil => intro j acc; rfl
  | cons e t ih =>
    intro j acc
    rw [List.enumFrom_cons]
    simp only [List.foldl_cons]
    rw [ih (j + 1)]
    have hstep : lastOwnerFrom k j (e :: t) =
        match lastOwnerFrom k (j + 1) t with
        | some i => some i
        | none => if k ∈ sfdroKeys e then some j else none := rfl
    rw [hstep]
    cases hlo : lastOwnerFrom k (j + 1) t with
    | some i => rfl
    | none =>
      rw [aget_putAll]
      by_cases hk : k ∈ sfdroKeys e
      · rw [if_pos hk, if_pos hk]
      · rw [if_neg hk, if_neg hk]

/-- `keys_dict` lookup = last owning shard index. -/
theorem aget_buildKeysDict (ds : List Env) (k : String) :
    aget (buildKeysDict ds) k = lastOwnerFrom k 0 ds :=
  (aget_keysDictFold k ds 0 []).trans (by cases lastOwnerFrom k 0 ds <;> rfl)

/-- The `for i in range(...)` scan, characterised: starting at `i` with `m`
consecutive directories present and a gap at `i + m`, it returns exactly those `m`
names (the `break` fires at the first missing directory). -/
theorem scanRoot_run (root : RootFS) :
    ∀ (m f i : Nat), m < f →
    (∀ d, d < m → root.hasDir (composeLmdbDatasetName (i + d)) = true) →
    root.hasDir (composeLmdbDatasetName (i + m)) = false →
    scanRoot root f i = (List.range m).map (fun d => composeLmdbDatasetName (i + d)) := by
  intro m
  induction m with
  | zero =>
    intro f i hf hpres hgap
    cases f with
    | zero => omega
    | succ f' =>
      unfold scanRoot
      dsimp only
      rw [show root.hasDir (composeLmdbDatasetName i) = false from hgap]
      simp
  | succ m ih =>
    intro f i hf hpres hgap
    cases f with
    | zero => omega
    | succ f' =>
      unfold scanRoot
      dsimp only
      rw [show root.hasDir (composeLmdbDatasetName i) = true from hpres 0 (by omega)]
      simp only [if_true]
      rw [ih f' (i + 1) (by omega)
        (fun d hd => by
          have h := hpres (d + 1) (by omega)
          rwa [show i + (d + 1) = i + 1 + d from by omega] at h)
        (by rwa [show i + 1 + m = i + (m + 1) from by omega])]
      rw [List.range_succ_eq_map]
      simp only [List.map_cons, List.map_map, Nat.add_zero]
      congr 1
      exact List.map_congr_left
        (fun d _ => congrArg composeLmdbDatasetName (by omega))

/-- A root with shard directories 0 and 2 but no 1 — an externally created gap. -/
def rootCE : RootFS :=
  ⟨fun nm => decide (nm = composeLmdbDatasetName 0) || decide (nm = composeLmdbDatasetName 2),
   fun nm => if nm = composeLmdbDatasetName 0 then [([97], [120])] else [([98], [121])]⟩

/-- **C7 counterexample.** Shard directory 2 exists under the root and holds key
`"b"`, but the scan breaks at the gap (missing id 1): the opened dataset contains
only shard 0, its key dictionary only exposes `"a"`, and reading `"b"` returns the
not-found result instead of shard 2's value — the claim's "opens every shard
directory present, tolerating gaps" fails. -/
theorem C7_counterexample :
    rootCE.hasDir (composeLmdbDatasetName 2) = true ∧
    aget (rootCE.shardEnv (composeLmdbDatasetName 2)) [98] = some [121] ∧
    rootCE.hasDir (composeLmdbDatasetName 1) = false ∧
    lmdbDatasetReadonly_open rootCE = .ok ⟨[[([97], [120])]], [("a", 0)]⟩ ∧
    LmdbDatasetReadonly.read_json ⟨[[([97], [120])]], [("a", 0)]⟩ "b" = .ok .pairNone :=
  ⟨rfl, rfl, rfl, rfl, rfl⟩

/-- **C7** (corrected). The single-root read-only dataset does *not* tolerate gaps:
its scan opens exactly the maximal contiguous run of shard ids `0, …, n-1` and stops
at the first missing directory (first conjunct). Over the shards it *does* open, the
aggregation part of the claim holds: a key is exposed iff some opened shard's key
set holds it (second conjunct), a key absent from the dictionary reads as not-found
(third), and a key with dictionary entry `i` belongs to shard `i`'s key set and is
read by delegating to that shard (fourth; `i` is the last opened shard holding the
key — duplicates are last-wins, not unioned). -/
theorem C7_readonly_opens_contiguous_prefix
    (root : RootFS) (n : Nat)
    (hn : 0 < n) (hn12 : n < 1000000000000)
    (hpresent : ∀ i, i < n → root.hasDir (composeLmdbDatasetName i) = true)
    (hgap : root.hasDir (composeLmdbDatasetName n) = false) :
    lmdbDatasetReadonly_open root =
      .ok ⟨(List.range n).map (fun i => root.shardEnv (composeLmdbDatasetName i)),
        buildKeysDict
          ((List.range n).map (fun i => root.shardEnv (composeLmdbDatasetName i)))⟩ ∧
    (∀ dss : List Env, ∀ k : String,
      ((aget (buildKeysDict dss) k).isSome = true ↔ ∃ env ∈ dss, k ∈ sfdroKeys env)) ∧
    (∀ dss : List Env, ∀ k : String, aget (buildKeysDict dss) k = none →
      (LmdbDatasetReadonly.mk dss (buildKeysDict dss)).read_json k = .ok .pairNone) ∧
    (∀ dss : List Env, ∀ (k : String) (i : Nat), aget (buildKeysDict dss) k = some i →
      i < dss.length ∧ k ∈ sfdroKeys (dss.getD i []) ∧
      (LmdbDatasetReadonly.mk dss (buildKeysDict dss)).read_json k =
        match sfdro_read_json (dss.getD i []) k with
        | .error e => .error e
        | .ok j => .ok (.value j)) := by
  refine ⟨?_, ?_, ?_, ?_⟩
  · have hscan : scanRoot root 1000000000000 0 =
        (List.range n).map composeLmdbDatasetName := by
      have h := scanRoot_run root n 1000000000000 0 hn12
        (fun d hd => by simpa using hpresent d hd) (by simpa using hgap)
      simpa using h
    have hne : ((List.range n).map composeLmdbDatasetName).isEmpty = false := by
      cases hr : List.range n with
      | nil => exact absurd (List.range_eq_nil.mp hr) (by omega)
      | cons a t => rfl
    unfold lmdbDatasetReadonly_open find_lmdb_datasets_paths
    dsimp only
    rw [hscan, hne]
    simp only [Bool.false_eq_true, if_false, List.map_map]
    rfl
  · intro dss k
    rw [aget_buildKeysDict]
    exact lastOwnerFrom_isSome k dss 0
  · intro dss k h
    simp only [LmdbDatasetReadonly.read_json, LmdbDatasetReadonly.get_dataset_containing, h]
  · intro dss k i h
    have hlo : lastOwnerFrom k 0 dss = some i := by
      rw [aget_buildKeysDict] at h
      exact h
    obtain ⟨h0, hlen, hmem⟩ := lastOwnerFrom_some k dss 0 i hlo
    refine ⟨by simpa using hlen, by simpa using hmem, ?_⟩
    simp only [LmdbDatasetReadonly.read_json, LmdbDatasetReadonly.get_dataset_containing, h]

/-- A gap-free root with a single shard 0 holding `"a" ↦ "1"`. -/
def rootW : RootFS :=
  ⟨fun nm => decide (nm = composeLmdbDatasetName 0), fun _ => [([97], [49])]⟩

/-- Witness for C7: the single-shard root opens to exactly that shard and reading
the exposed key delegates to it. -/
theorem C7_witness :
    lmdbDatasetReadonly_open rootW = .ok ⟨[[([97], [49])]], [("a", 0)]⟩ ∧
    (LmdbDatasetReadonly.mk [[([97], [49])]] [("a", 0)]).read_json "a" =
      .ok (.value (some (.int 1))) := by
  have hthm := C7_readonly_opens_contiguous_prefix rootW 1 (by omega) (by omega)
    (by
      intro i hi
      have hi0 : i = 0 := by omega
      subst hi0
      rfl)
    rfl
  exact ⟨hthm.1, (hthm.2.2.2 [[([97], [49])]] "a" 0 rfl).2.2.trans rfl⟩

/-- A root with two shard directories (0 and 1), both empty. -/
def rootA : RootFS :=
  ⟨fun nm => decide (nm = composeLmdbDatasetName 0) || decide (nm = composeLmdbDatasetName 1),
   fun _ => []⟩

/-- A root with a single shard 0 holding `"k" ↦ "1"`. -/
def rootB : RootFS :=
  ⟨fun nm => decide (nm = composeLmdbDatasetName 0), fun _ => [([107], [49])]⟩

/-- **C8 counterexample.** Over roots `[rootA, rootB]` where `rootA` contains two
shards and `rootB` (root index 1) stores `"k" ↦ "1"`: the key list pairs `"k"` with
2 — its index in the *flattened shard list* — not with its root index 1, and
reading the claim's composite key `(1, "k")` hits `rootA`'s second shard and
returns not-found instead of `rootB`'s value, which sits at `(2, "k")`. -/
theorem C8_counterexample :
    lmdbMultipleDatasetsReadonly_open [rootA, rootB] =
      .ok ⟨[[], [], [([107], [49])]], [(2, "k")]⟩ ∧
    (LmdbMultipleDatasetsReadonly.mk [[], [], [([107], [49])]] [(2, "k")]).read_json
      (1, "k") = .ok (.value none) ∧
    (LmdbMultipleDatasetsReadonly.mk [[], [], [([107], [49])]] [(2, "k")]).read_json
      (2, "k") = .ok (.value (some (.int 1))) ∧
    (Except.ok (ROReadJson.value none) : Except PyError ROReadJson) ≠
      .ok (.value (some (.int 1))) := by
  refine ⟨rfl, rfl, rfl, ?_⟩
  intro h
  injection h with h1
  injection h1 with h2
  exact Option.noConfusion h2

/-- **C8** (corrected). The first component of the composite key is an index into
the *flattened shard list*, not a root index: a lookup out of that list's range
reads as not-found (first conjunct) and one in range delegates to the `i`-th
flattened shard (second conjunct). The claim's reading of `(rootIndex, key)` is
recovered exactly when every root contributes a single shard (directory 0 present,
directory 1 absent): then the flattened list has one entry per root in root order
(third conjunct) and `(i, key)` with `roots[i] = r` reads from `r`'s only shard
(fourth conjunct). -/
theorem C8_composite_key_indexes_flattened_shards
    (roots : List RootFS)
    (hroots : roots ≠ [])
    (hone : ∀ r ∈ roots, r.hasDir (composeLmdbDatasetName 0) = true ∧
      r.hasDir (composeLmdbDatasetName 1) = false) :
    (∀ (m : LmdbMultipleDatasetsReadonly) (i : Nat) (k : String),
      m.lmdbDatasets.length ≤ i → m.read_json (i, k) = .ok .pairNone) ∧
    (∀ (m : LmdbMultipleDatasetsReadonly) (i : Nat) (k : String),
      i < m.lmdbDatasets.length → m.read_json (i, k) =
        match sfdro_read_json (m.lmdbDatasets.getD i []) k with
        | .error e => .error e
        | .ok j => .ok (.value j)) ∧
    lmdbMultipleDatasetsReadonly_open roots =
      .ok ⟨roots.map (fun r => r.shardEnv (composeLmdbDatasetName 0)),
        (roots.map (fun r => r.shardEnv (composeLmdbDatasetName 0))).enum.flatMap
          (fun p => (sfdroKeys p.2).map (fun k => (p.1, k)))⟩ ∧
    (∀ (i : Nat) (r : RootFS) (k : String), roots[i]? = some r →
      (LmdbMultipleDatasetsReadonly.mk
          (roots.map (fun r => r.shardEnv (composeLmdbDatasetName 0)))
          ((roots.map (fun r => r.shardEnv (composeLmdbDatasetName 0))).enum.flatMap
            (fun p => (sfdroKeys p.2).map (fun k => (p.1, k))))).read_json (i, k) =
        match sfdro_read_json (r.shardEnv (composeLmdbDatasetName 0)) k with
        | .error e => .error e
        | .ok j => .ok (.value j)) := by
  have hB : ∀ (m : LmdbMultipleDatasetsReadonly) (i : Nat) (k : String),
      i < m.lmdbDatasets.length → m.read_json (i, k) =
        match sfdro_read_json (m.lmdbDatasets.getD i []) k with
        | .error e => .error e
        | .ok j => .ok (.value j) := by
    intro m i k hi
    unfold LmdbMultipleDatasetsReadonly.read_json
      LmdbMultipleDatasetsReadonly.get_dataset_containing
    rw [if_neg (by omega)]
  refine ⟨?_, hB, ?_, ?_⟩
  · intro m i k hi
    unfold LmdbMultipleDatasetsReadonly.read_json
      LmdbMultipleDatasetsReadonly.get_dataset_containing
    rw [if_pos (by omega)]
  · have hscan : ∀ r ∈ roots, scanRoot r 1000000000000 0 = [composeLmdbDatasetName 0] := by
      intro r hr
      have h := scanRoot_run r 1 1000000000000 0 (by omega)
        (fun d hd => by
          have hd0 : d = 0 := by omega
          subst hd0
          simpa using (hone r hr).1)
        (by simpa using (hone r hr).2)
      simpa using h
    have hflat : ∀ l : List RootFS,
        (∀ r ∈ l, scanRoot r 1000000000000 0 = [composeLmdbDatasetName 0]) →
        l.flatMap (fun r => (scanRoot r 1000000000000 0).map (fun n => (r, n)))
          = l.map (fun r => (r, composeLmdbDatasetName 0)) := by
      intro l
      induction l with
      | nil => intro _; rfl
      | cons r t ih =>
        intro hl
        simp only [List.flatMap_cons, List.map_cons,
          hl r (List.mem_cons_self r t),
          ih (fun g hg => hl g (List.mem_cons_of_mem r hg))]
        rfl
    have hne : (roots.map (fun r => (r, composeLmdbDatasetName 0))).isEmpty = false := by
      cases roots with
      | nil => exact absurd rfl hroots
      | cons a t => rfl
    unfold lmdbMultipleDatasetsReadonly_open multi_find_lmdb_datasets_paths
    dsimp only
    rw [hflat roots hscan, hne]
    simp only [Bool.false_eq_true, if_false, List.map_map]
    rfl
  · intro i r k hr
    have hi : i < roots.length := by
      by_contra hcon
      rw [List.getElem?_eq_none (by omega)] at hr
      exact Option.noConfusion hr
    have hget : (roots.map (fun r => r.shardEnv (composeLmdbDatasetName 0))).getD i []
        = r.shardEnv (composeLmdbDatasetName 0) := by
      rw [List.getD_eq_getElem?_getD, List.getElem?_map, hr]
      rfl
    have h := hB (LmdbMultipleDatasetsReadonly.mk
      (roots.map (fun r => r.shardEnv (composeLmdbDatasetName 0)))
      ((roots.map (fun r => r.shardEnv (composeLmdbDatasetName 0))).enum.flatMap
        (fun p => (sfdroKeys p.2).map (fun k => (p.1, k))))) i k
      (by simpa using hi)
    rw [h, hget]

/-- Witness for C8: with one shard per root the flattened index is the root index,
and `(0, "k")` reads root 0's value. -/
theorem C8_witness :
    lmdbMultipleDatasetsReadonly_open [rootB] = .ok ⟨[[([107], [49])]], [(0, "k")]⟩ ∧
    (LmdbMultipleDatasetsReadonly.mk [[([107], [49])]] [(0, "k")]).read_json (0, "k") =
      .ok (.value (some (.int 1))) := by
  have hthm := C8_composite_key_indexes_flattened_shards [rootB]
    (by intro h; exact List.noConfusion h)
    (by
      intro r hr
      rcases List.mem_cons.mp hr with rfl | hmem
      · exact ⟨rfl, rfl⟩
      · simp at hmem)
  exact ⟨hthm.2.2.1, (hthm.2.2.2 0 rootB "k" rfl).trans rfl⟩
